import Mathlib

/-!
Shallow embedding of the batch-processing-kit `Orchestrator`
(`src/batchkit/orchestrator.py`) accounting state and of the operations that
act on it: `_merge_results`, `notify_work_success`, `notify_work_failure`,
`steal_work` (one iteration of its consumer loop), `cancel_running_batch`,
`request_stop`, `hotswap_endpoint_managers`, and the batch-start block of
`_master_thread_loop`.  Python dictionaries are embedded as association lists
over `String` keys, the multiprocessing primitives (`Event`, condition
variables) as booleans and wake-up counters, and fallible code (statements
that can raise `KeyError`) as `Option`-returning functions.
-/

namespace Batchkit

/-- Modelled from the spec: `WorkItemRequest` (not under src/) carries a stable
unique `filepath` identifier and an optional `language` routing tag. -/
structure WorkItemRequest where
  filepath : String
  language : Option String
deriving DecidableEq, Repr

/-- Modelled from the spec: `WorkItemResult` (not under src/) carries
`attempts` (int, starting at 1), `can_retry`, and worker-defined outcome
data (represented here by `succeeded`). -/
structure WorkItemResult where
  attempts : Nat
  can_retry : Bool
  succeeded : Bool
deriving DecidableEq, Repr

/-- The `EndpointManager` handle as consumed by the orchestrator: a
generation-tagged `name`, a logical `endpoint_name`, an opaque configuration
map compared by value, a tag for the type of its `WorkItemProcessor`, and its
`stop_requested` flag (set by `EndpointManager.request_stop`). -/
structure EndpointManager where
  name : String
  endpoint_name : String
  endpoint_config : List (String × String)
  procType : Nat
  stop_requested : Bool
deriving DecidableEq, Repr

/-- Lookup in a Python-dict-like association list (`d[k]` / `d.get(k)`). -/
def alookup {α : Type} : List (String × α) → String → Option α
  | [], _ => none
  | p :: rest, k => if p.1 = k then some p.2 else alookup rest k

/-- Key membership in a Python-dict-like association list (`k in d`). -/
def hasKey {α : Type} : List (String × α) → String → Bool
  | [], _ => false
  | p :: rest, k => if p.1 = k then true else hasKey rest k

/-- Python dict assignment `d[k] = v`: replace in place if the key is
present, append otherwise (preserving dict insertion order). -/
def aset {α : Type} (l : List (String × α)) (k : String) (v : α) :
    List (String × α) :=
  if hasKey l k then l.map (fun p => if p.1 = k then (k, v) else p)
  else l ++ [(k, v)]

/-- Python dict deletion `del d[k]` (the caller checks presence where the
source would raise `KeyError`). -/
def aerase {α : Type} (l : List (String × α)) (k : String) :
    List (String × α) :=
  l.filter (fun p => decide (p.1 ≠ k))

/-- Membership of a name in a Python set of strings (`n in s`). -/
def memStr : List String → String → Bool
  | [], _ => false
  | x :: rest, n => if x = n then true else memStr rest n

/-- Python set insertion `s.add(n)`. -/
def addStr (l : List String) (n : String) : List String :=
  if memStr l n then l else l ++ [n]

/-- Python set insertion of several names in order. -/
def addStrs (l : List String) (ns : List String) : List String :=
  ns.foldl addStr l

/-- Python `str.lower()` on the ASCII range, as applied to the language
tags compared in `steal_work`. -/
def strLower (s : String) : String := String.mk (s.data.map Char.toLower)

/-- Truthiness of the optional `language` field in Python
(`if work.language`): `None` and the empty string are falsy. -/
def langTruthy : Option String → Bool
  | none => false
  | some l => decide (l ≠ "")

/-- The orchestrator's accounting state: the fields of `Orchestrator`
guarded by `_accounting_lock` (plus `_misc_lock`-guarded `_config_notifier`
and the immutable `_creator_pid`).  The work queue is the FIFO
`WorkItemQueue` (not under src/; modelled from the spec as a list with
`get` = head and `put` = append), dictionaries are association lists, the
`multiprocessing.Event`s are booleans, and `cond_notify` / `cond_broadcast`
count `notify` / `notify_all` calls on `_file_queue_cond`. -/
structure OrchState where
  file_queue : List WorkItemRequest
  file_queue_size : Nat
  in_progress : List (String × WorkItemRequest)
  in_progress_owner : List (String × EndpointManager)
  work_results : List (String × Option WorkItemResult)
  batch_completion_evt : Bool
  stop_requested : Bool
  old_managers : List String
  endpoint_managers : List EndpointManager
  endpoint_generation : Nat
  on_batch_id : Int
  config_notifier : Bool
  creator_pid : Nat
  submission_que : List (Option Nat)
  run_summary_thread_gate : Bool
  cond_notify : Nat
  cond_broadcast : Nat
  cnt_work_success_cb : Nat
  cnt_work_failure_cb : Nat
  singleton_run_summary_path_some : Bool
deriving DecidableEq, Repr

/-- The state of a freshly constructed `Orchestrator` (`__init__`). -/
def initialState (creator_pid : Nat) (singleton : Bool) : OrchState where
  file_queue := []
  file_queue_size := 0
  in_progress := []
  in_progress_owner := []
  work_results := []
  batch_completion_evt := false
  stop_requested := false
  old_managers := []
  endpoint_managers := []
  endpoint_generation := 0
  on_batch_id := -1
  config_notifier := true
  creator_pid := creator_pid
  submission_que := []
  run_summary_thread_gate := false
  cond_notify := 0
  cond_broadcast := 0
  cnt_work_success_cb := 0
  cnt_work_failure_cb := 0
  singleton_run_summary_path_some := singleton

/-- `Orchestrator._merge_results`: if there is no prior result for the
filepath (or only the `None` placeholder), store the incoming result as-is;
otherwise add the previously stored attempts onto the incoming result and
store the replacement. -/
def merge_results (wr : List (String × Option WorkItemResult))
    (filepath : String) (result : WorkItemResult) :
    List (String × Option WorkItemResult) :=
  match alookup wr filepath with
  | none => aset wr filepath (some result)
  | some none => aset wr filepath (some result)
  | some (some prev) =>
      aset wr filepath
        (some { result with attempts := result.attempts + prev.attempts })

/-- The result value that `_merge_results` stores for `filepath`: the
incoming result as-is when nothing (or the `None` placeholder) was stored,
else the incoming result with the previously stored attempts added on. -/
def mergedResult (wr : List (String × Option WorkItemResult))
    (filepath : String) (result : WorkItemResult) : WorkItemResult :=
  match alookup wr filepath with
  | some (some prev) =>
      { result with attempts := result.attempts + prev.attempts }
  | _ => result

/-- `EndpointManager.request_stop` as seen from the orchestrator: it sets the
manager's stop flag. -/
def stopManager (m : EndpointManager) : EndpointManager :=
  { m with stop_requested := true }

/-- The queue-draining loop `while self._file_queue_size > 0: get(); size -= 1`
of `request_stop` / `cancel_running_batch`, recursing on the size counter. -/
def drainN : Nat → List WorkItemRequest → List WorkItemRequest
  | 0, q => q
  | n + 1, q => drainN n q.tail

/-- `Orchestrator.notify_work_success`.  Returns `none` when the Python code
would raise `KeyError` (the unguarded `del self._in_progress[filepath]` /
`del self._in_progress_owner[filepath]`); otherwise the updated state. -/
def notify_work_success (s : OrchState) (manager : EndpointManager)
    (filepath : String) (result : WorkItemResult) : Option OrchState :=
  let s1 := { s with cnt_work_success_cb := s.cnt_work_success_cb + 1 }
  if memStr s1.old_managers manager.name then some s1
  else if s1.stop_requested then some s1
  else
    match alookup s1.in_progress filepath, alookup s1.in_progress_owner filepath with
    | some _, some _ =>
        let s2 := { s1 with
          in_progress := aerase s1.in_progress filepath,
          in_progress_owner := aerase s1.in_progress_owner filepath }
        let s3 := { s2 with
          work_results := merge_results s2.work_results filepath result }
        if s3.file_queue_size = 0 ∧ s3.in_progress.isEmpty then
          some { s3 with batch_completion_evt := true }
        else some s3
    | _, _ => none

/-- `Orchestrator.notify_work_failure` with the retry budget
`ORCHESTRATOR_SCOPE_MAX_RETRIES` (a constant not under src/; modelled from
the spec as a parameter, a positive integer) passed in as `maxRetries`.
Returns `none` when the Python code would raise `KeyError` (the unguarded
`self._in_progress[filepath]` accesses). -/
def notify_work_failure (maxRetries : Nat) (s : OrchState)
    (manager : EndpointManager) (filepath : String) (result : WorkItemResult) :
    Option OrchState :=
  let s1 := { s with cnt_work_failure_cb := s.cnt_work_failure_cb + 1 }
  if memStr s1.old_managers manager.name then some s1
  else if s1.stop_requested then some s1
  else
    match alookup s1.in_progress filepath, alookup s1.in_progress_owner filepath with
    | some req, some _ =>
        let s2 := { s1 with
          work_results := merge_results s1.work_results filepath result }
        let stored_attempts : Nat :=
          match alookup s2.work_results filepath with
          | some (some r) => r.attempts
          | _ => 0
        let s3 :=
          if result.can_retry ∧ (stored_attempts : Int) - 1 < (maxRetries : Int) then
            { s2 with
              file_queue := s2.file_queue ++ [req],
              file_queue_size := s2.file_queue_size + 1,
              cond_notify := s2.cond_notify + 1 }
          else s2
        let s4 := { s3 with
          in_progress := aerase s3.in_progress filepath,
          in_progress_owner := aerase s3.in_progress_owner filepath }
        if s4.file_queue_size = 0 ∧ s4.in_progress.isEmpty then
          some { s4 with batch_completion_evt := true }
        else some s4
    | _, _ => none

/-- Outcome of one iteration of the consumer loop in
`Orchestrator.steal_work`: exit with a real work item, exit with the
sentinel, go back to waiting on `_file_queue_cond` (state unchanged), raise
`KeyError` on the unguarded `manager.endpoint_config["language"]` lookup, or
block forever inside `WorkItemQueue.get` on an empty queue. -/
inductive StealOutcome
  | got (w : WorkItemRequest) (s : OrchState)
  | sentinel (s : OrchState)
  | wait (s : OrchState)
  | keyError
  | blocked
deriving DecidableEq, Repr

/-- One iteration of the `while True` loop of `Orchestrator.steal_work`,
with the lock held. -/
def steal_work_step (s : OrchState) (manager : EndpointManager) :
    StealOutcome :=
  if memStr s.old_managers manager.name ∨ s.stop_requested then .sentinel s
  else if s.file_queue_size > 0 then
    match s.file_queue with
    | [] => .blocked
    | w :: rest =>
        let s1 := { s with
          file_queue := rest, file_queue_size := s.file_queue_size - 1 }
        let registered : StealOutcome :=
          .got w { s1 with
            in_progress := aset s1.in_progress w.filepath w,
            in_progress_owner := aset s1.in_progress_owner w.filepath manager }
        match w.language with
        | some wl =>
            if wl ≠ "" then
              match alookup manager.endpoint_config "language" with
              | none => .keyError
              | some ml =>
                  if strLower ml ≠ strLower wl then
                    .sentinel { s1 with
                      file_queue := s1.file_queue ++ [w],
                      file_queue_size := s1.file_queue_size + 1,
                      cond_notify := s1.cond_notify + 1 }
                  else registered
            else registered
        | none => registered
  else .wait s

/-- `Orchestrator.cancel_running_batch`. -/
def cancel_running_batch (s : OrchState) (batch_id : Int) :
    Bool × OrchState :=
  if s.on_batch_id ≠ batch_id then (false, s)
  else
    let s1 := { s with
      file_queue := drainN s.file_queue_size s.file_queue,
      file_queue_size := 0,
      cond_broadcast := s.cond_broadcast + 1 }
    let s2 : OrchState := { s1 with in_progress := [], in_progress_owner := [] }
    let s3 : OrchState := { s2 with
      endpoint_managers := s2.endpoint_managers.map stopManager,
      old_managers :=
        addStrs s2.old_managers
          (s2.endpoint_managers.map (fun m => m.name)) }
    (true, { s3 with batch_completion_evt := true })

/-- `Orchestrator.request_stop`, invoked from the process with id
`caller_pid`.  A no-op unless called from the creator process; otherwise it
stops the config notifier, sets `stop_requested`, drains the queue, pushes a
`None` stop sentinel onto the submission queue, broadcasts the queue
condition, sets the completion event, stops every endpoint manager, and
opens the run-summary gate. -/
def request_stop (caller_pid : Nat) (s : OrchState) : OrchState :=
  if caller_pid ≠ s.creator_pid then s
  else
    let s0 := { s with config_notifier := false }
    let s1 := { s0 with
      stop_requested := true,
      file_queue := drainN s0.file_queue_size s0.file_queue,
      file_queue_size := 0 }
    let s2 := { s1 with
      submission_que := s1.submission_que ++ [none],
      cond_broadcast := s1.cond_broadcast + 1,
      batch_completion_evt := true }
    { s2 with
      endpoint_managers := s2.endpoint_managers.map stopManager,
      run_summary_thread_gate := true }

/-- Construction of a replacement manager in `hotswap_endpoint_managers`,
named `HotswapGen{gen}_{endpoint_name}`. -/
def newEM (gen : Nat) (epName : String) (epCfg : List (String × String))
    (procType : Nat) : EndpointManager where
  name := "HotswapGen" ++ toString gen ++ "_" ++ epName
  endpoint_name := epName
  endpoint_config := epCfg
  procType := procType
  stop_requested := false

/-- The dict comprehension `{em.endpoint_name: em for em in
self._endpoint_managers}` that seeds `deleted_managers`. -/
def buildDeleted (ems : List EndpointManager) :
    List (String × EndpointManager) :=
  ems.foldl (fun d em => aset d em.endpoint_name em) []

/-- The `for endpoint_name, endpoint_config in config_data.items()` loop of
`hotswap_endpoint_managers`: an existing manager with unchanged
configuration, matching work-item-processor type and not already stopped is
preserved (removed from `deleted`); every other configured endpoint gets a
new generation-tagged manager.  Returns the remaining `deleted` map and the
new managers in configuration order. -/
def hotswapDiffFold (procType : Nat) (gen : Nat)
    (cfg : List (String × List (String × String)))
    (deleted : List (String × EndpointManager)) :
    List (String × EndpointManager) × List EndpointManager :=
  match cfg with
  | [] => (deleted, [])
  | (epName, epCfg) :: rest =>
      match alookup deleted epName with
      | some em =>
          if em.endpoint_config = epCfg ∧ em.procType = procType ∧
              em.stop_requested = false then
            hotswapDiffFold procType gen rest (aerase deleted epName)
          else
            let p := hotswapDiffFold procType gen rest deleted
            (p.1, newEM gen epName epCfg procType :: p.2)
      | none =>
          let p := hotswapDiffFold procType gen rest deleted
          (p.1, newEM gen epName epCfg procType :: p.2)

/-- The `deleted_managers` map as it stands after the configuration diff of
`hotswap_endpoint_managers` on state `s`. -/
def hotswapDeleted (procType : Nat)
    (cfg : List (String × List (String × String))) (s : OrchState) :
    List (String × EndpointManager) :=
  (hotswapDiffFold procType s.endpoint_generation cfg
    (buildDeleted s.endpoint_managers)).1

/-- The in-progress reassignment loop of `hotswap_endpoint_managers`: walk
`in_progress`; an item whose owner's endpoint is in the deleted set is
removed (from the shallow copies) and pushed back to the queue.  Returns
`none` when the Python code would raise `KeyError` on
`self._in_progress_owner[filepath]`; otherwise the kept entries, the moved
filepaths and the moved items in iteration order. -/
def reassign (deletedKeys : List String)
    (owner : List (String × EndpointManager)) :
    List (String × WorkItemRequest) →
    Option (List (String × WorkItemRequest) × List String ×
      List WorkItemRequest)
  | [] => some ([], [], [])
  | (fp, w) :: rest =>
      match alookup owner fp with
      | none => none
      | some m =>
          match reassign deletedKeys owner rest with
          | none => none
          | some (kept, movedFps, moved) =>
              if memStr deletedKeys m.endpoint_name then
                some (kept, fp :: movedFps, w :: moved)
              else
                some ((fp, w) :: kept, movedFps, moved)

/-- `Orchestrator.hotswap_endpoint_managers` after a successful
`load_configuration` produced `cfg`, with `procType` the tag of the
`WorkItemProcessor` type chosen for the current batch type.  (The function
checks `stop_requested` twice under the same lock acquisition with no
intervening write, so the two checks are modelled as one.)  Returns `none`
when the reassignment loop would raise `KeyError`. -/
def hotswap_endpoint_managers (procType : Nat)
    (cfg : List (String × List (String × String))) (s : OrchState) :
    Option OrchState :=
  if s.stop_requested then some s
  else
    let gen := s.endpoint_generation
    let s0 : OrchState := { s with endpoint_generation := gen + 1 }
    let p := hotswapDiffFold procType gen cfg (buildDeleted s0.endpoint_managers)
    let deleted := p.1
    let newEms := p.2
    let deletedKeys := deleted.map (fun q => q.1)
    let olds := addStrs s0.old_managers
      (s0.endpoint_managers.filterMap
        (fun m => if memStr deletedKeys m.endpoint_name then some m.name else none))
    match reassign deletedKeys s0.in_progress_owner s0.in_progress with
    | none => none
    | some (kept, movedFps, moved) =>
        some { s0 with
          old_managers := olds,
          in_progress := kept,
          in_progress_owner :=
            s0.in_progress_owner.filter (fun q => !(memStr movedFps q.1)),
          file_queue := s0.file_queue ++ moved,
          file_queue_size := s0.file_queue_size + moved.length,
          cond_broadcast := s0.cond_broadcast + 1,
          endpoint_managers :=
            (s0.endpoint_managers.filter
              (fun m => !(memStr deletedKeys m.endpoint_name))) ++ newEms }

/-- The batch-start block of `Orchestrator._master_thread_loop` (after the
hotswap and the stop check): reset `work_results` unless in singleton
run-summary mode, record the batch id, clear the completion event, open the
run-summary gate, enqueue every work item while installing its `None`
placeholder result, and broadcast the queue condition.  The loop body runs
only after `assert len(self._in_progress) == 0` and
`assert self._file_queue_size == 0` succeed. -/
def batch_start (s : OrchState) (batch_id : Int)
    (items : List WorkItemRequest) : OrchState :=
  let s0 : OrchState :=
    if s.singleton_run_summary_path_some then s
    else { s with work_results := [] }
  let s1 : OrchState := { s0 with
    on_batch_id := batch_id,
    batch_completion_evt := false,
    run_summary_thread_gate := true }
  let s2 : OrchState := items.foldl
    (fun t w => { t with
      file_queue := t.file_queue ++ [w],
      file_queue_size := t.file_queue_size + 1,
      work_results := aset t.work_results w.filepath none }) s1
  { s2 with cond_broadcast := s2.cond_broadcast + 1 }

/-- Outcome of the underlying run-summary write performed inside
`write_summary_information` (`write_json_file_atomic` or
`BatchStatusProvider.set_run_summary`). -/
inductive SummaryWriteOutcome
  | ok
  | batchNotFound
  | otherError
deriving DecidableEq, Repr

/-- The exception behaviour of `Orchestrator.write_summary_information`:
returns `true` iff an exception propagates to the caller.  `singleton_path`
says whether `_singleton_run_summary_path` is set (then the write goes
through `write_json_file_atomic`; otherwise through
`set_run_summary`, whose `BatchNotFoundException` is swallowed).  A failed
write is logged and re-raised only when `allow_fail` is false. -/
def write_summary_information (write_run_summary : Bool) (allow_fail : Bool)
    (singleton_path : Bool) (outcome : SummaryWriteOutcome) : Bool :=
  if write_run_summary then
    if singleton_path then
      match outcome with
      | .ok => false
      | .batchNotFound => !allow_fail
      | .otherError => !allow_fail
    else
      match outcome with
      | .ok => false
      | .batchNotFound => false
      | .otherError => !allow_fail
  else false

/-- Argument tuple of a `write_summary_information` call site. -/
structure SummaryCallArgs where
  write_run_summary : Bool
  write_retries : Nat
  log_conclusion_msg : Bool
  allow_fail : Bool
deriving DecidableEq, Repr

/-- The arguments with which `_master_thread_loop` performs the terminal
per-batch summary write after `batch_completion_evt` fires, depending on
whether `_singleton_run_summary_path` is `None`. -/
def master_terminal_summary_args (singleton_path_is_none : Bool) :
    SummaryCallArgs :=
  if singleton_path_is_none then
    { write_run_summary := true, write_retries := 10,
      log_conclusion_msg := true, allow_fail := true }
  else
    { write_run_summary := true, write_retries := 10,
      log_conclusion_msg := false, allow_fail := true }

/-- Projection of a `steal_work_step` outcome onto the successor accounting
state, defined exactly when the iteration neither raises nor blocks. -/
def stealNextState : StealOutcome → Option OrchState
  | .got _ s => some s
  | .sentinel s => some s
  | .wait s => some s
  | .keyError => none
  | .blocked => none

/-- States reachable from `init` by completed orchestrator operations, where
every reported result carries `attempts = 1` (each worker attempt reports
itself once) and every batch is made of work items with distinct filepaths
(the data model requires `filepath` to be unique within a batch). -/
inductive Reach (maxRetries : Nat) (init : OrchState) : OrchState → Prop
  | refl : Reach maxRetries init init
  | steal (s s' : OrchState) (m : EndpointManager) :
      Reach maxRetries init s →
      stealNextState (steal_work_step s m) = some s' →
      Reach maxRetries init s'
  | success (s s' : OrchState) (m : EndpointManager) (fp : String)
      (r : WorkItemResult) :
      Reach maxRetries init s → r.attempts = 1 →
      notify_work_success s m fp r = some s' →
      Reach maxRetries init s'
  | failure (s s' : OrchState) (m : EndpointManager) (fp : String)
      (r : WorkItemResult) :
      Reach maxRetries init s → r.attempts = 1 →
      notify_work_failure maxRetries s m fp r = some s' →
      Reach maxRetries init s'
  | hotswap (s s' : OrchState) (procType : Nat)
      (cfg : List (String × List (String × String))) :
      Reach maxRetries init s →
      hotswap_endpoint_managers procType cfg s = some s' →
      Reach maxRetries init s'
  | cancel (s : OrchState) (bid : Int) :
      Reach maxRetries init s →
      Reach maxRetries init (cancel_running_batch s bid).2
  | stop (s : OrchState) (pid : Nat) :
      Reach maxRetries init s →
      Reach maxRetries init (request_stop pid s)
  | batchStart (s : OrchState) (bid : Int) (items : List WorkItemRequest) :
      Reach maxRetries init s →
      s.file_queue_size = 0 → s.in_progress = [] →
      (items.map (fun w => w.filepath)).Nodup →
      Reach maxRetries init (batch_start s bid items)

/-- Sample work item with a language tag, for concrete instances. -/
def wEn : WorkItemRequest := { filepath := "f1", language := some "en" }

/-- Sample work item without a language tag, for concrete instances. -/
def wPlain : WorkItemRequest := { filepath := "f2", language := none }

/-- Sample manager configured for language `en`, for concrete instances. -/
def mgrEn : EndpointManager :=
  { name := "HotswapGen0_E1", endpoint_name := "E1",
    endpoint_config := [("language", "en")], procType := 0,
    stop_requested := false }

/-- Sample manager configured for language `fr`, for concrete instances. -/
def mgrFr : EndpointManager :=
  { name := "HotswapGen0_E2", endpoint_name := "E2",
    endpoint_config := [("language", "fr")], procType := 0,
    stop_requested := false }

/-- Sample manager whose configuration lacks the `language` key, for
concrete instances. -/
def mgrNoLang : EndpointManager :=
  { name := "HotswapGen0_E3", endpoint_name := "E3",
    endpoint_config := [], procType := 0, stop_requested := false }

/-- Sample retriable failure result with one attempt. -/
def resRetry : WorkItemResult :=
  { attempts := 1, can_retry := true, succeeded := false }

/-- Sample success result with one attempt. -/
def resOk : WorkItemResult :=
  { attempts := 1, can_retry := false, succeeded := true }

/-- Sample freshly created orchestrator state (creator process id 7). -/
def baseState : OrchState := initialState 7 false

/-- Sample state with one work item in progress, owned by `mgrEn`, with one
recorded attempt. -/
def stInProgress : OrchState :=
  { baseState with
    in_progress := [("f1", wEn)],
    in_progress_owner := [("f1", mgrEn)],
    work_results := [("f1", some resRetry)] }

/-- Sample state in which `mgrEn` has been retired. -/
def stRetired : OrchState :=
  { stInProgress with old_managers := ["HotswapGen0_E1"] }

/-- Sample state with one queued language-tagged work item. -/
def stQueue : OrchState :=
  { baseState with file_queue := [wEn], file_queue_size := 1 }

/-- Sample mid-batch state: batch 5 running, one item queued, one in
progress, one manager. -/
def stBatch : OrchState :=
  { stInProgress with
    on_batch_id := 5,
    file_queue := [wPlain],
    file_queue_size := 1,
    endpoint_managers := [mgrEn] }

/-- Sample pre-hotswap state: manager `mgrEn` owns the in-progress item. -/
def stHS : OrchState :=
  { baseState with
    endpoint_managers := [mgrEn],
    in_progress := [("f1", wEn)],
    in_progress_owner := [("f1", mgrEn)] }

/-- Sample replacement configuration that drops endpoint `E1` and adds
`E2`. -/
def cfgSwap : List (String × List (String × String)) :=
  [("E2", [("language", "en")])]

/-- The accounting invariant maintained by the orchestrator operations:
the queue size counter matches the queue, queued filepaths are distinct and
disjoint from `in_progress`, `in_progress` binds each filepath to a request
with that filepath and has distinct keys, and stored results respect the
retry budget (with the sharper bound `≤ maxRetries` while the item can still
run again). -/
structure Inv (maxRetries : Nat) (s : OrchState) : Prop where
  size_eq : s.file_queue_size = s.file_queue.length
  queue_nodup : (s.file_queue.map (fun w => w.filepath)).Nodup
  disjoint : ∀ w ∈ s.file_queue, alookup s.in_progress w.filepath = none
  inprog_keys : ∀ p ∈ s.in_progress, p.2.filepath = p.1
  inprog_nodup : (s.in_progress.map (fun q => q.1)).Nodup
  attempts_bound : ∀ fp r, alookup s.work_results fp = some (some r) →
    r.attempts ≤ maxRetries + 1 ∧
    ((fp ∈ s.file_queue.map (fun w => w.filepath) ∨
        (alookup s.in_progress fp).isSome) → r.attempts ≤ maxRetries)

theorem memStr_iff {l : List String} {n : String} :
    memStr l n = true ↔ n ∈ l := by
  induction l with
  | nil => simp [memStr]
  | cons x rest ih =>
      by_cases h : x = n
      · subst h
        simp [memStr]
      · simp only [memStr, if_neg h, ih, List.mem_cons]
        exact ⟨Or.inr, fun hc => hc.elim (fun he => absurd he.symm h) id⟩

theorem hasKey_iff {α : Type} {l : List (String × α)} {k : String} :
    hasKey l k = true ↔ k ∈ l.map (fun p => p.1) := by
  induction l with
  | nil => simp [hasKey]
  | cons p rest ih =>
      by_cases h : p.1 = k
      · simp [hasKey, h]
      · simp only [hasKey, if_neg h, ih, List.map_cons, List.mem_cons]
        exact ⟨Or.inr, fun hc => hc.elim (fun he => absurd he.symm h) id⟩

theorem alookup_isSome {α : Type} {l : List (String × α)} {k : String} :
    (alookup l k).isSome = true ↔ k ∈ l.map (fun p => p.1) := by
  induction l with
  | nil => simp [alookup]
  | cons p rest ih =>
      by_cases h : p.1 = k
      · simp [alookup, h]
      · simp only [alookup, if_neg h, ih, List.map_cons, List.mem_cons]
        exact ⟨Or.inr, fun hc => hc.elim (fun he => absurd he.symm h) id⟩

theorem alookup_eq_none {α : Type} {l : List (String × α)} {k : String} :
    alookup l k = none ↔ k ∉ l.map (fun p => p.1) := by
  rw [← alookup_isSome]
  cases alookup l k <;> simp

theorem alookup_mem {α : Type} {l : List (String × α)} {k : String} {v : α}
    (h : alookup l k = some v) : (k, v) ∈ l := by
  induction l with
  | nil => simp [alookup] at h
  | cons p rest ih =>
      by_cases hp : p.1 = k
      · simp only [alookup, if_pos hp, Option.some.injEq] at h
        cases p with
        | mk a b =>
            simp only at hp h
            subst hp
            subst h
            exact List.mem_cons_self _ _
      · simp only [alookup, if_neg hp] at h
        exact List.mem_cons.2 (Or.inr (ih h))

theorem mem_alookup {α : Type} {l : List (String × α)} {k : String} {v : α}
    (hnd : (l.map (fun p => p.1)).Nodup) (h : (k, v) ∈ l) :
    alookup l k = some v := by
  induction l with
  | nil => simp at h
  | cons p rest ih =>
      rw [List.map_cons, List.nodup_cons] at hnd
      rcases List.mem_cons.1 h with h | h
      · subst h
        simp [alookup]
      · have hk : k ∈ rest.map (fun p => p.1) :=
          List.mem_map.2 ⟨(k, v), h, rfl⟩
        have hp : p.1 ≠ k := fun he => hnd.1 (he ▸ hk)
        simp only [alookup, if_neg hp]
        exact ih hnd.2 h

theorem alookup_append {α : Type} {l1 l2 : List (String × α)} {k : String} :
    alookup (l1 ++ l2) k =
      match alookup l1 k with
      | some v => some v
      | none => alookup l2 k := by
  induction l1 with
  | nil => simp [alookup]
  | cons p rest ih =>
      by_cases h : p.1 = k <;> simp [alookup, h, ih]

theorem alookup_map_replace_ne {α : Type} {l : List (String × α)}
    {k k' : String} {v : α} (h : k' ≠ k) :
    alookup (l.map (fun p => if p.1 = k then (k, v) else p)) k' =
      alookup l k' := by
  induction l with
  | nil => simp [alookup]
  | cons p rest ih =>
      by_cases hp : p.1 = k
      · simp only [List.map_cons, if_pos hp, alookup]
        rw [if_neg (fun hc : k = k' => h hc.symm)]
        rw [if_neg (fun hc : p.1 = k' => h (hp.symm.trans hc).symm)]
        exact ih
      · simp only [List.map_cons, if_neg hp, alookup]
        by_cases hp' : p.1 = k'
        · simp [hp']
        · simp [hp', ih]

theorem alookup_map_replace_self {α : Type} {l : List (String × α)}
    {k : String} {v : α} (h : hasKey l k = true) :
    alookup (l.map (fun p => if p.1 = k then (k, v) else p)) k = some v := by
  induction l with
  | nil => simp [hasKey] at h
  | cons p rest ih =>
      by_cases hp : p.1 = k
      · simp [alookup, hp]
      · simp [hasKey, hp] at h
        simp [alookup, hp, ih h]

theorem alookup_aset {α : Type} {l : List (String × α)} {k k' : String}
    {v : α} :
    alookup (aset l k v) k' = if k' = k then some v else alookup l k' := by
  unfold aset
  by_cases hk : hasKey l k
  · simp only [hk, if_true]
    by_cases h : k' = k
    · subst h
      simp [alookup_map_replace_self hk]
    · simp [h, alookup_map_replace_ne h]
  · simp only [hk, Bool.false_eq_true, if_false]
    rw [alookup_append]
    by_cases h : k' = k
    · subst h
      have : alookup l k' = none := by
        rw [alookup_eq_none]
        intro hmem
        exact hk (hasKey_iff.2 hmem)
      simp [this, alookup]
    · cases hl : alookup l k' <;> simp [alookup, Ne.symm h, h]

theorem keys_aset {α : Type} {l : List (String × α)} {k : String} {v : α} :
    (aset l k v).map (fun p => p.1) =
      if hasKey l k then l.map (fun p => p.1)
      else l.map (fun p => p.1) ++ [k] := by
  unfold aset
  by_cases hk : hasKey l k
  · simp only [hk, if_true, List.map_map]
    apply List.map_congr_left
    intro p _
    by_cases hp : p.1 = k <;> simp [hp]
  · simp [hk]

theorem nodup_keys_aset {α : Type} {l : List (String × α)} {k : String}
    {v : α} (h : (l.map (fun p => p.1)).Nodup) :
    ((aset l k v).map (fun p => p.1)).Nodup := by
  rw [keys_aset]
  by_cases hk : hasKey l k
  · simpa [hk]
  · have : k ∉ l.map (fun p => p.1) := fun hm => hk (hasKey_iff.2 hm)
    simp [hk, List.nodup_append, this, h]

theorem alookup_aerase {α : Type} {l : List (String × α)} {k k' : String} :
    alookup (aerase l k) k' =
      if k' = k then none else alookup l k' := by
  induction l with
  | nil => simp [aerase, alookup]
  | cons p rest ih =>
      by_cases hp : p.1 = k
      · have he : aerase (p :: rest) k = aerase rest k := by
          simp [aerase, hp]
        rw [he, ih]
        by_cases h : k' = k
        · simp [h]
        · have hp' : ¬ p.1 = k' := fun hc => h (hc.symm.trans hp)
          simp [h, alookup, hp']
      · have he : aerase (p :: rest) k = p :: aerase rest k := by
          simp [aerase, hp]
        rw [he]
        simp only [alookup, ih]
        by_cases hp' : p.1 = k'
        · have h : ¬ k' = k := fun hc => hp (hp'.trans hc)
          simp [hp', h]
        · simp [hp']

theorem keys_aerase_sublist {α : Type} {l : List (String × α)} {k : String} :
    ((aerase l k).map (fun p => p.1)).Sublist (l.map (fun p => p.1)) :=
  List.Sublist.map _ (List.filter_sublist l)

theorem mem_aerase {α : Type} {l : List (String × α)} {k : String}
    {p : String × α} : p ∈ aerase l k ↔ p ∈ l ∧ p.1 ≠ k := by
  simp [aerase]

theorem drainN_eq_drop : ∀ (n : Nat) (q : List WorkItemRequest),
    drainN n q = q.drop n := by
  intro n
  induction n with
  | zero => intro q; simp [drainN]
  | succ m ih =>
      intro q
      cases q with
      | nil => simp [drainN, ih]
      | cons a t => simp [drainN, ih]

theorem memStr_addStr {l : List String} {m n : String} :
    memStr (addStr l m) n = (memStr l n || decide (m = n)) := by
  unfold addStr
  by_cases hm : memStr l m
  · by_cases h : m = n
    · subst h
      simp [hm]
    · simp [hm, h]
  · simp only [hm, Bool.false_eq_true, if_false]
    have : ∀ l' : List String, memStr (l' ++ [m]) n = (memStr l' n || decide (m = n)) := by
      intro l'
      induction l' with
      | nil => by_cases h : m = n <;> simp [memStr, h]
      | cons x rest ih => by_cases hx : x = n <;> simp [memStr, hx, ih]
    exact this l

theorem merge_lookup_self {wr : List (String × Option WorkItemResult)}
    {fp : String} {r : WorkItemResult} :
    alookup (merge_results wr fp r) fp = some (some (mergedResult wr fp r)) := by
  unfold merge_results mergedResult
  cases h : alookup wr fp with
  | none => simp [alookup_aset]
  | some o =>
      cases o with
      | none => simp [alookup_aset]
      | some prev => simp [alookup_aset]

theorem merge_lookup_ne {wr : List (String × Option WorkItemResult)}
    {fp fp' : String} {r : WorkItemResult} (h : fp' ≠ fp) :
    alookup (merge_results wr fp r) fp' = alookup wr fp' := by
  unfold merge_results
  cases hl : alookup wr fp with
  | none => simp [alookup_aset, h]
  | some o => cases o <;> simp [alookup_aset, h]

theorem merge_keys_nodup {wr : List (String × Option WorkItemResult)}
    {fp : String} {r : WorkItemResult}
    (h : (wr.map (fun p => p.1)).Nodup) :
    ((merge_results wr fp r).map (fun p => p.1)).Nodup := by
  unfold merge_results
  cases hl : alookup wr fp with
  | none => exact nodup_keys_aset h
  | some o => cases o <;> exact nodup_keys_aset h

theorem notify_work_success_char {s : OrchState} {m : EndpointManager}
    {fp : String} {r : WorkItemResult} {req : WorkItemRequest}
    {own : EndpointManager}
    (hm : memStr s.old_managers m.name = false)
    (hs : s.stop_requested = false)
    (hin : alookup s.in_progress fp = some req)
    (how : alookup s.in_progress_owner fp = some own) :
    ∃ s', notify_work_success s m fp r = some s' ∧
      s'.file_queue = s.file_queue ∧
      s'.file_queue_size = s.file_queue_size ∧
      s'.in_progress = aerase s.in_progress fp ∧
      s'.in_progress_owner = aerase s.in_progress_owner fp ∧
      s'.work_results = merge_results s.work_results fp r ∧
      s'.batch_completion_evt =
        (if s.file_queue_size = 0 ∧ (aerase s.in_progress fp).isEmpty = true
          then true else s.batch_completion_evt) ∧
      s'.stop_requested = s.stop_requested ∧
      s'.old_managers = s.old_managers ∧
      s'.endpoint_managers = s.endpoint_managers ∧
      s'.endpoint_generation = s.endpoint_generation ∧
      s'.on_batch_id = s.on_batch_id ∧
      s'.config_notifier = s.config_notifier ∧
      s'.creator_pid = s.creator_pid ∧
      s'.submission_que = s.submission_que ∧
      s'.run_summary_thread_gate = s.run_summary_thread_gate ∧
      s'.cond_notify = s.cond_notify ∧
      s'.cond_broadcast = s.cond_broadcast ∧
      s'.singleton_run_summary_path_some = s.singleton_run_summary_path_some := by
  unfold notify_work_success
  simp only [hm, hs, hin, how, Bool.false_eq_true, if_false]
  split
  next hcond => exact ⟨_, rfl, by simp [hs, hcond]⟩
  next hcond => exact ⟨_, rfl, by simp [hs, hcond]⟩

theorem notify_work_failure_char {maxR : Nat} {s : OrchState}
    {m : EndpointManager} {fp : String} {r : WorkItemResult}
    {req : WorkItemRequest} {own : EndpointManager}
    (hm : memStr s.old_managers m.name = false)
    (hs : s.stop_requested = false)
    (hin : alookup s.in_progress fp = some req)
    (how : alookup s.in_progress_owner fp = some own) :
    ∃ s', notify_work_failure maxR s m fp r = some s' ∧
      s'.file_queue =
        (if r.can_retry = true ∧
            ((mergedResult s.work_results fp r).attempts : Int) - 1 < (maxR : Int)
          then s.file_queue ++ [req] else s.file_queue) ∧
      s'.file_queue_size =
        (if r.can_retry = true ∧
            ((mergedResult s.work_results fp r).attempts : Int) - 1 < (maxR : Int)
          then s.file_queue_size + 1 else s.file_queue_size) ∧
      s'.in_progress = aerase s.in_progress fp ∧
      s'.in_progress_owner = aerase s.in_progress_owner fp ∧
      s'.work_results = merge_results s.work_results fp r ∧
      s'.cond_notify =
        (if r.can_retry = true ∧
            ((mergedResult s.work_results fp r).attempts : Int) - 1 < (maxR : Int)
          then s.cond_notify + 1 else s.cond_notify) ∧
      s'.batch_completion_evt =
        (if s'.file_queue_size = 0 ∧ (aerase s.in_progress fp).isEmpty = true
          then true else s.batch_completion_evt) ∧
      s'.stop_requested = s.stop_requested ∧
      s'.old_managers = s.old_managers ∧
      s'.endpoint_managers = s.endpoint_managers ∧
      s'.endpoint_generation = s.endpoint_generation ∧
      s'.on_batch_id = s.on_batch_id ∧
      s'.config_notifier = s.config_notifier ∧
      s'.creator_pid = s.creator_pid ∧
      s'.submission_que = s.submission_que ∧
      s'.run_summary_thread_gate = s.run_summary_thread_gate ∧
      s'.cond_broadcast = s.cond_broadcast ∧
      s'.singleton_run_summary_path_some = s.singleton_run_summary_path_some := by
  unfold notify_work_failure
  simp only [hm, hs, hin, how, Bool.false_eq_true, if_false, merge_lookup_self]
  split
  next hretry =>
    split
    next hcond => exact ⟨_, rfl, by simp at hcond⟩
    next hcond => exact ⟨_, rfl, by simp [hs, hretry]⟩
  next hretry =>
    split
    next hcond =>
      have h1 : s.file_queue_size = 0 := hcond.1
      have h2 : (aerase s.in_progress fp).isEmpty = true := hcond.2
      exact ⟨_, rfl, by simp [hs, hretry, h1, h2]⟩
    next hcond =>
      have h1 : ¬(s.file_queue_size = 0 ∧
          (aerase s.in_progress fp).isEmpty = true) := hcond
      refine ⟨_, rfl, ?_⟩
      simp only [hs, hretry, if_false, and_true, true_and]
      simp
      intro hsz hemp
      exact absurd ⟨hsz, by simp [hemp]⟩ h1

theorem memStr_addStrs {l : List String} {ns : List String} {n : String} :
    memStr (addStrs l ns) n = (memStr l n || decide (n ∈ ns)) := by
  induction ns generalizing l with
  | nil => simp [addStrs]
  | cons m rest ih =>
      have he : addStrs l (m :: rest) = addStrs (addStr l m) rest := rfl
      rw [he, ih, memStr_addStr]
      by_cases h1 : m = n
      · simp [h1]
      · have h1' : ¬ n = m := fun hc => h1 hc.symm
        by_cases h2 : n ∈ rest <;> simp [h1, h1', h2]

theorem notify_work_success_retired {s : OrchState} {m : EndpointManager}
    {fp : String} {r : WorkItemResult}
    (hm : memStr s.old_managers m.name = true) :
    notify_work_success s m fp r =
      some { s with cnt_work_success_cb := s.cnt_work_success_cb + 1 } := by
  unfold notify_work_success
  simp [hm]

theorem notify_work_failure_retired {maxR : Nat} {s : OrchState}
    {m : EndpointManager} {fp : String} {r : WorkItemResult}
    (hm : memStr s.old_managers m.name = true) :
    notify_work_failure maxR s m fp r =
      some { s with cnt_work_failure_cb := s.cnt_work_failure_cb + 1 } := by
  unfold notify_work_failure
  simp [hm]

/-- C5: callbacks from a retired manager (name recorded in `old_managers`)
complete without touching the accounting state: for any filepath and result,
`notify_work_success` and `notify_work_failure` leave the work queue, the
queue size, `in_progress`, `in_progress_owner`, `work_results` and
`batch_completion_evt` unchanged. -/
theorem c5_retired_manager_callbacks_ignored (maxR : Nat) (s : OrchState)
    (m : EndpointManager) (fp : String) (r : WorkItemResult)
    (hm : memStr s.old_managers m.name = true) :
    (∃ s', notify_work_success s m fp r = some s' ∧
      s'.file_queue = s.file_queue ∧
      s'.file_queue_size = s.file_queue_size ∧
      s'.in_progress = s.in_progress ∧
      s'.in_progress_owner = s.in_progress_owner ∧
      s'.work_results = s.work_results ∧
      s'.batch_completion_evt = s.batch_completion_evt) ∧
    (∃ s', notify_work_failure maxR s m fp r = some s' ∧
      s'.file_queue = s.file_queue ∧
      s'.file_queue_size = s.file_queue_size ∧
      s'.in_progress = s.in_progress ∧
      s'.in_progress_owner = s.in_progress_owner ∧
      s'.work_results = s.work_results ∧
      s'.batch_completion_evt = s.batch_completion_evt) :=
  ⟨⟨_, notify_work_success_retired hm, rfl, rfl, rfl, rfl, rfl, rfl⟩,
    ⟨_, notify_work_failure_retired hm, rfl, rfl, rfl, rfl, rfl, rfl⟩⟩

/-- Witness for C5 at a concrete retired manager. -/
theorem c5_witness :
    memStr stRetired.old_managers mgrEn.name = true ∧
    (∃ s', notify_work_success stRetired mgrEn "f1" resOk = some s' ∧
      s'.file_queue = stRetired.file_queue ∧
      s'.file_queue_size = stRetired.file_queue_size ∧
      s'.in_progress = stRetired.in_progress ∧
      s'.in_progress_owner = stRetired.in_progress_owner ∧
      s'.work_results = stRetired.work_results ∧
      s'.batch_completion_evt = stRetired.batch_completion_evt) :=
  ⟨by decide,
    (c5_retired_manager_callbacks_ignored 3 stRetired mgrEn "f1" resOk
      (by decide)).1⟩

/-- C3: the merge performed by `notify_work_success` / `notify_work_failure`
(`_merge_results`) stores the incoming result as-is when there is no prior
stored result or only the `None` placeholder, and otherwise stores the
incoming result with its `attempts` increased by the previously stored
attempts; the stored entry for the filepath is always the merged most
recent result, and completed notify calls install exactly this merge. -/
theorem c3_merge_semantics (wr : List (String × Option WorkItemResult))
    (fp : String) (r : WorkItemResult) :
    ((alookup wr fp = none ∨ alookup wr fp = some none) →
        merge_results wr fp r = aset wr fp (some r)) ∧
    (∀ prev, alookup wr fp = some (some prev) →
        merge_results wr fp r =
          aset wr fp (some { r with attempts := r.attempts + prev.attempts })) ∧
    alookup (merge_results wr fp r) fp = some (some (mergedResult wr fp r)) ∧
    (∀ s m s', s.work_results = wr →
        memStr s.old_managers m.name = false → s.stop_requested = false →
        notify_work_success s m fp r = some s' →
        s'.work_results = merge_results wr fp r) ∧
    (∀ maxR s m s', s.work_results = wr →
        memStr s.old_managers m.name = false → s.stop_requested = false →
        notify_work_failure maxR s m fp r = some s' →
        s'.work_results = merge_results wr fp r) := by
  refine ⟨?_, ?_, merge_lookup_self, ?_, ?_⟩
  · intro h
    unfold merge_results
    rcases h with h | h <;> rw [h]
  · intro prev h
    unfold merge_results
    rw [h]
  · intro s m s' hw hm hs h4
    cases hin : alookup s.in_progress fp with
    | none => simp [notify_work_success, hm, hs, hin] at h4
    | some req =>
        cases how : alookup s.in_progress_owner fp with
        | none => simp [notify_work_success, hm, hs, hin, how] at h4
        | some own =>
            obtain ⟨s'', he, -, -, -, -, hwr, -⟩ :=
              notify_work_success_char (r := r) hm hs hin how
            rw [he, Option.some.injEq] at h4
            subst h4
            rw [← hw]
            exact hwr
  · intro maxR s m s' hw hm hs h4
    cases hin : alookup s.in_progress fp with
    | none => simp [notify_work_failure, hm, hs, hin] at h4
    | some req =>
        cases how : alookup s.in_progress_owner fp with
        | none => simp [notify_work_failure, hm, hs, hin, how] at h4
        | some own =>
            obtain ⟨s'', he, -, -, -, -, hwr, -⟩ :=
              @notify_work_failure_char maxR s m fp r req own hm hs hin how
            rw [he, Option.some.injEq] at h4
            subst h4
            rw [← hw]
            exact hwr

/-- Witness for C3 at a concrete stored result: merging a second one-attempt
result accumulates `attempts` to 2. -/
theorem c3_witness :
    alookup [("f1", some resRetry)] "f1" = some (some resRetry) ∧
    merge_results [("f1", some resRetry)] "f1" resRetry =
      aset [("f1", some resRetry)] "f1"
        (some { resRetry with attempts := resRetry.attempts + resRetry.attempts }) :=
  ⟨by decide,
    (c3_merge_semantics [("f1", some resRetry)] "f1" resRetry).2.1 resRetry
      (by decide)⟩

/-- Counterexample for C9: the terminal per-batch summary write in
`_master_thread_loop` passes `allow_fail=True` (not `false` as claimed), so
a failing write there does not propagate. -/
theorem c9_counterexample :
    (master_terminal_summary_args true).allow_fail = true ∧
    write_summary_information true
      (master_terminal_summary_args true).allow_fail false
      SummaryWriteOutcome.otherError = false := by
  constructor
  · rfl
  · rfl

/-- C9 (amended): `write_summary_information` re-raises a summary-write
failure to its caller iff `allow_fail` is false (otherwise the failure is
only logged), and raises nothing when no run summary is written; but the
terminal per-batch summary writes performed by the master loop pass
`allow_fail=true`, so a failure there is logged and does not propagate. -/
theorem c9_summary_failure_propagation :
    (∀ allow_fail singleton_path : Bool,
        write_summary_information true allow_fail singleton_path
          SummaryWriteOutcome.otherError = !allow_fail) ∧
    (∀ (allow_fail singleton_path : Bool) (o : SummaryWriteOutcome),
        write_summary_information false allow_fail singleton_path o = false) ∧
    (∀ b : Bool, (master_terminal_summary_args b).allow_fail = true) ∧
    (∀ b : Bool,
        write_summary_information
          (master_terminal_summary_args b).write_run_summary
          (master_terminal_summary_args b).allow_fail (!b)
          SummaryWriteOutcome.otherError = false) := by
  refine ⟨?_, ?_, ?_, ?_⟩
  · intro af sp
    cases af <;> cases sp <;> rfl
  · intro af sp o
    cases af <;> cases sp <;> cases o <;> rfl
  · intro b
    cases b <;> rfl
  · intro b
    cases b <;> rfl

/-- C10: `steal_work` is total only under the precondition that the
manager's `endpoint_config` has a `"language"` key whenever the dequeued
item's `language` is set; without that key and with a language-tagged item
at the head of the queue, the unguarded
`manager.endpoint_config["language"]` lookup raises `KeyError`. -/
theorem c10_steal_work_language_key_partiality :
    (∀ s m, (∀ w, s.file_queue.head? = some w → langTruthy w.language = true →
        (alookup m.endpoint_config "language").isSome = true) →
      steal_work_step s m ≠ StealOutcome.keyError) ∧
    steal_work_step stQueue mgrNoLang = StealOutcome.keyError := by
  constructor
  · intro s m h hk
    unfold steal_work_step at hk
    by_cases h1 : (memStr s.old_managers m.name = true ∨ s.stop_requested = true)
    · rw [if_pos h1] at hk
      exact StealOutcome.noConfusion hk
    · rw [if_neg h1] at hk
      by_cases h2 : s.file_queue_size > 0
      · rw [if_pos h2] at hk
        cases hq : s.file_queue with
        | nil =>
            rw [hq] at hk
            exact StealOutcome.noConfusion hk
        | cons w rest =>
            rw [hq] at hk
            cases hlang : w.language with
            | none =>
                simp only [hlang] at hk
                exact StealOutcome.noConfusion hk
            | some wl =>
                simp only [hlang] at hk
                by_cases hwl : wl ≠ ""
                · have hsome :
                      (alookup m.endpoint_config "language").isSome = true := by
                    apply h w
                    · rw [hq]
                      rfl
                    · simp [langTruthy, hlang, hwl]
                  cases halo : alookup m.endpoint_config "language" with
                  | none =>
                      rw [halo] at hsome
                      simp at hsome
                  | some ml =>
                      rw [if_pos hwl, halo] at hk
                      by_cases hml : strLower ml ≠ strLower wl
                      · simp [hml] at hk
                      · simp [hml] at hk
                · rw [if_neg hwl] at hk
                  exact StealOutcome.noConfusion hk
      · rw [if_neg h2] at hk
        exact StealOutcome.noConfusion hk
  · decide

/-- Witness for C10: with a `"language"` key present the precondition holds
and the step does not raise. -/
theorem c10_witness :
    (∀ w, stQueue.file_queue.head? = some w → langTruthy w.language = true →
      (alookup mgrEn.endpoint_config "language").isSome = true) ∧
    steal_work_step stQueue mgrEn ≠ StealOutcome.keyError :=
  ⟨by decide,
    (c10_steal_work_language_key_partiality).1 stQueue mgrEn (by decide)⟩

/-- C6: one pass of `steal_work` never hands out a work item whose
`language` is set and differs case-insensitively from the manager's
configured `endpoint_config["language"]`; on such a mismatch it puts the
dequeued item back on the queue (same elements, same size, `in_progress`
untouched), notifies one other waiter, and exits with the sentinel. -/
theorem c6_language_routing :
    (∀ s m w s', steal_work_step s m = StealOutcome.got w s' →
      ∀ l, w.language = some l → l ≠ "" →
        ∃ ml, alookup m.endpoint_config "language" = some ml ∧
          strLower ml = strLower l) ∧
    (∀ s m w rest l ml,
      memStr s.old_managers m.name = false → s.stop_requested = false →
      s.file_queue = w :: rest → s.file_queue_size > 0 →
      w.language = some l → l ≠ "" →
      alookup m.endpoint_config "language" = some ml →
      strLower ml ≠ strLower l →
      ∃ s', steal_work_step s m = StealOutcome.sentinel s' ∧
        s'.file_queue = rest ++ [w] ∧
        s'.file_queue.Perm s.file_queue ∧
        s'.file_queue_size = s.file_queue_size ∧
        s'.in_progress = s.in_progress ∧
        s'.in_progress_owner = s.in_progress_owner ∧
        s'.work_results = s.work_results ∧
        s'.batch_completion_evt = s.batch_completion_evt ∧
        s'.cond_notify = s.cond_notify + 1) := by
  constructor
  · intro s m w s' hk l hl hlne
    unfold steal_work_step at hk
    by_cases h1 : (memStr s.old_managers m.name = true ∨ s.stop_requested = true)
    · rw [if_pos h1] at hk
      exact StealOutcome.noConfusion hk
    · rw [if_neg h1] at hk
      by_cases h2 : s.file_queue_size > 0
      · rw [if_pos h2] at hk
        cases hq : s.file_queue with
        | nil =>
            rw [hq] at hk
            exact StealOutcome.noConfusion hk
        | cons wh rest =>
            rw [hq] at hk
            cases hlang : wh.language with
            | none =>
                simp only [hlang] at hk
                injection hk with hww hss
                subst hww
                rw [hl] at hlang
                exact Option.noConfusion hlang
            | some wl =>
                simp only [hlang] at hk
                by_cases hwl : wl ≠ ""
                · cases halo : alookup m.endpoint_config "language" with
                  | none =>
                      rw [if_pos hwl, halo] at hk
                      exact StealOutcome.noConfusion hk
                  | some ml =>
                      rw [if_pos hwl, halo] at hk
                      by_cases hml : strLower ml ≠ strLower wl
                      · simp [hml] at hk
                      · simp only [not_not] at hml
                        simp [hml] at hk
                        obtain ⟨hww, hss⟩ := hk
                        subst hww
                        rw [hl] at hlang
                        have hwll : wl = l := (Option.some.inj hlang).symm
                        subst hwll
                        exact ⟨ml, rfl, hml⟩
                · rw [if_neg hwl] at hk
                  injection hk with hww hss
                  subst hww
                  rw [hl] at hlang
                  have hwll : wl = l := (Option.some.inj hlang).symm
                  have hemp : wl = "" := not_not.1 hwl
                  exact absurd (hwll.symm.trans hemp) hlne
      · rw [if_neg h2] at hk
        exact StealOutcome.noConfusion hk
  · intro s m w rest l ml hm hs hq h2 hl hlne halo hml
    unfold steal_work_step
    rw [if_neg (by simp [hm, hs])]
    rw [if_pos h2, hq]
    simp only [hl]
    rw [if_pos hlne]
    simp only [halo]
    rw [if_pos hml]
    refine ⟨_, rfl, rfl, ?_, ?_, rfl, rfl, rfl, rfl, rfl⟩
    · show (rest ++ [w]).Perm (w :: rest)
      exact List.perm_append_singleton w rest
    · show s.file_queue_size - 1 + 1 = s.file_queue_size
      omega

/-- Witness for C6 at a concrete mismatch: a `fr`-configured manager pushes
the `en`-tagged item back and returns the sentinel. -/
theorem c6_witness :
    stQueue.file_queue = wEn :: [] ∧
    (∃ s', steal_work_step stQueue mgrFr = StealOutcome.sentinel s' ∧
      s'.file_queue = [] ++ [wEn] ∧
      s'.file_queue.Perm stQueue.file_queue ∧
      s'.file_queue_size = stQueue.file_queue_size ∧
      s'.in_progress = stQueue.in_progress ∧
      s'.in_progress_owner = stQueue.in_progress_owner ∧
      s'.work_results = stQueue.work_results ∧
      s'.batch_completion_evt = stQueue.batch_completion_evt ∧
      s'.cond_notify = stQueue.cond_notify + 1) :=
  ⟨by decide,
    c6_language_routing.2 stQueue mgrFr wEn [] "en" "fr" (by decide) (by decide)
      (by decide) (by decide) (by decide) (by decide) (by decide) (by decide)⟩

theorem stopManager_idem (l : List EndpointManager) :
    (l.map stopManager).map stopManager = l.map stopManager := by
  induction l with
  | nil => rfl
  | cons m rest ih => simp [stopManager, ih]

theorem request_stop_creator {pid : Nat} {s : OrchState}
    (h : pid = s.creator_pid) :
    request_stop pid s =
      { s with
        config_notifier := false,
        stop_requested := true,
        file_queue := drainN s.file_queue_size s.file_queue,
        file_queue_size := 0,
        submission_que := s.submission_que ++ [none],
        cond_broadcast := s.cond_broadcast + 1,
        batch_completion_evt := true,
        endpoint_managers := s.endpoint_managers.map stopManager,
        run_summary_thread_gate := true } := by
  unfold request_stop
  rw [if_neg (fun hc => hc h)]

/-- C7: `cancel_running_batch` returns `false` and leaves the state
untouched when another batch is current; otherwise it returns `true` and
afterwards the queue is drained (empty, size 0), `in_progress` and
`in_progress_owner` are cleared, every endpoint manager has been asked to
stop and has its name in `old_managers`, and `batch_completion_evt` is
set. -/
theorem c7_cancel_running_batch (s : OrchState) (bid : Int) :
    (s.on_batch_id ≠ bid → cancel_running_batch s bid = (false, s)) ∧
    (s.on_batch_id = bid → s.file_queue_size = s.file_queue.length →
      (cancel_running_batch s bid).1 = true ∧
      (cancel_running_batch s bid).2.file_queue = [] ∧
      (cancel_running_batch s bid).2.file_queue_size = 0 ∧
      (cancel_running_batch s bid).2.in_progress = [] ∧
      (cancel_running_batch s bid).2.in_progress_owner = [] ∧
      (∀ m ∈ s.endpoint_managers,
        memStr (cancel_running_batch s bid).2.old_managers m.name = true) ∧
      (∀ m ∈ (cancel_running_batch s bid).2.endpoint_managers,
        m.stop_requested = true) ∧
      (cancel_running_batch s bid).2.batch_completion_evt = true) := by
  constructor
  · intro hne
    unfold cancel_running_batch
    rw [if_pos hne]
  · intro heq hsz
    have hcan : cancel_running_batch s bid =
        (true,
          { s with
            file_queue := drainN s.file_queue_size s.file_queue,
            file_queue_size := 0,
            cond_broadcast := s.cond_broadcast + 1,
            in_progress := [],
            in_progress_owner := [],
            endpoint_managers := s.endpoint_managers.map stopManager,
            old_managers :=
              addStrs s.old_managers
                (s.endpoint_managers.map (fun m => m.name)),
            batch_completion_evt := true }) := by
      unfold cancel_running_batch
      rw [if_neg (fun hc => hc heq)]
    rw [hcan]
    refine ⟨rfl, ?_, rfl, rfl, rfl, ?_, ?_, rfl⟩
    · show drainN s.file_queue_size s.file_queue = []
      rw [drainN_eq_drop, hsz]
      exact List.drop_length s.file_queue
    · intro m hm
      show memStr (addStrs s.old_managers
        (s.endpoint_managers.map (fun m => m.name))) m.name = true
      rw [memStr_addStrs]
      have : m.name ∈ s.endpoint_managers.map (fun m => m.name) :=
        List.mem_map.2 ⟨m, hm, rfl⟩
      simp [this]
    · intro m hm
      show m.stop_requested = true
      obtain ⟨m0, -, hm0⟩ := List.mem_map.1 hm
      rw [← hm0]
      rfl

/-- Witness for C7 at a concrete mid-batch state: cancelling batch 5 drains
everything and retires the manager, and cancelling a different id is
rejected with no state change. -/
theorem c7_witness :
    (stBatch.on_batch_id ≠ 6 ∧ cancel_running_batch stBatch 6 = (false, stBatch)) ∧
    (stBatch.on_batch_id = 5 ∧
      stBatch.file_queue_size = stBatch.file_queue.length ∧
      (cancel_running_batch stBatch 5).1 = true ∧
      (cancel_running_batch stBatch 5).2.file_queue = [] ∧
      (cancel_running_batch stBatch 5).2.in_progress = []) := by
  constructor
  · exact ⟨by decide, (c7_cancel_running_batch stBatch 6).1 (by decide)⟩
  · have h := (c7_cancel_running_batch stBatch 5).2 (by decide) (by decide)
    exact ⟨by decide, by decide, h.1, h.2.1, h.2.2.2.1⟩

/-- Counterexample for C8: `request_stop` is not idempotent on the
submission stream — a second call from the creator process pushes a second
`None` stop sentinel, so the state after two calls differs from the state
after one. -/
theorem c8_counterexample :
    request_stop 7 (request_stop 7 baseState) ≠ request_stop 7 baseState := by
  decide

/-- C8 (amended): `request_stop` is a complete no-op when invoked from a
process other than the creator; from the creator process a second call
reproduces the state of the first except that it appends one more `None`
stop sentinel to the submission stream and re-broadcasts the queue
condition variable. -/
theorem c8_request_stop_idempotent_mod_sentinel :
    (∀ (pid : Nat) (s : OrchState), pid ≠ s.creator_pid →
      request_stop pid s = s) ∧
    (∀ (pid : Nat) (s : OrchState), pid = s.creator_pid →
      request_stop pid (request_stop pid s) =
        { request_stop pid s with
            submission_que := (request_stop pid s).submission_que ++ [none],
            cond_broadcast := (request_stop pid s).cond_broadcast + 1 }) := by
  constructor
  · intro pid s h
    unfold request_stop
    rw [if_pos h]
  · intro pid s h
    have hs1 : pid = (request_stop pid s).creator_pid := by
      rw [request_stop_creator h]
      exact h
    rw [request_stop_creator hs1, request_stop_creator h]
    simp [OrchState.mk.injEq, stopManager_idem]
    exact ⟨rfl, fun a _ => rfl⟩

/-- Witness for C8 at concrete states: a non-creator call is a no-op, and
the creator's second call differs only by the extra sentinel and
broadcast. -/
theorem c8_witness :
    request_stop 3 baseState = baseState ∧
    request_stop 7 (request_stop 7 baseState) =
      { request_stop 7 baseState with
          submission_que := (request_stop 7 baseState).submission_que ++ [none],
          cond_broadcast := (request_stop 7 baseState).cond_broadcast + 1 } :=
  ⟨c8_request_stop_idempotent_mod_sentinel.1 3 baseState (by decide),
    c8_request_stop_idempotent_mod_sentinel.2 7 baseState (by decide)⟩

/-- Counterexample for C4: `request_stop` from the creator process sets
`batch_completion_evt` while `in_progress` is still nonempty — it drains the
queue but never clears `in_progress` — so the completion event is not set
"only in a state where the queue has been drained and in_progress is
empty". -/
theorem c4_counterexample :
    (request_stop 7 stInProgress).batch_completion_evt = true ∧
    (request_stop 7 stInProgress).in_progress ≠ [] := by
  decide

/-- C4 (amended): after a completed `notify_work_success` /
`notify_work_failure` call from a non-retired manager without stop
requested, starting from a state where the completion event is not yet set,
`batch_completion_evt` is set iff the queue size is 0 and `in_progress` is
empty; `request_stop` sets `batch_completion_evt` after draining the queue,
but leaves `in_progress` untouched (possibly nonempty). -/
theorem c4_completion_iff_quiescent :
    (∀ (s : OrchState) (m : EndpointManager) (fp : String)
        (r : WorkItemResult) (s' : OrchState),
      s.batch_completion_evt = false →
      memStr s.old_managers m.name = false → s.stop_requested = false →
      notify_work_success s m fp r = some s' →
      (s'.batch_completion_evt = true ↔
        (s'.file_queue_size = 0 ∧ s'.in_progress = []))) ∧
    (∀ (maxR : Nat) (s : OrchState) (m : EndpointManager) (fp : String)
        (r : WorkItemResult) (s' : OrchState),
      s.batch_completion_evt = false →
      memStr s.old_managers m.name = false → s.stop_requested = false →
      notify_work_failure maxR s m fp r = some s' →
      (s'.batch_completion_evt = true ↔
        (s'.file_queue_size = 0 ∧ s'.in_progress = []))) ∧
    (∀ (pid : Nat) (s : OrchState), pid = s.creator_pid →
      (request_stop pid s).batch_completion_evt = true ∧
      (request_stop pid s).file_queue_size = 0 ∧
      (request_stop pid s).in_progress = s.in_progress) := by
  refine ⟨?_, ?_, ?_⟩
  · intro s m fp r s' hevt hm hs h4
    cases hin : alookup s.in_progress fp with
    | none => simp [notify_work_success, hm, hs, hin] at h4
    | some req =>
        cases how : alookup s.in_progress_owner fp with
        | none => simp [notify_work_success, hm, hs, hin, how] at h4
        | some own =>
            obtain ⟨s'', he, -, hsz, hip, -, -, hbc, -⟩ :=
              notify_work_success_char (r := r) hm hs hin how
            rw [he, Option.some.injEq] at h4
            subst h4
            rw [hbc, hsz, hip, hevt]
            by_cases hc : s.file_queue_size = 0 ∧
                (aerase s.in_progress fp).isEmpty = true
            · simp [hc.1, hc.2, List.isEmpty_iff.1 hc.2]
            · rw [if_neg hc]
              simp only [Bool.false_eq_true, false_iff]
              intro hcon
              exact hc ⟨hcon.1, by simp [hcon.2]⟩
  · intro maxR s m fp r s' hevt hm hs h4
    cases hin : alookup s.in_progress fp with
    | none => simp [notify_work_failure, hm, hs, hin] at h4
    | some req =>
        cases how : alookup s.in_progress_owner fp with
        | none => simp [notify_work_failure, hm, hs, hin, how] at h4
        | some own =>
            obtain ⟨s'', he, -, -, hip, -, -, -, hbc, -⟩ :=
              @notify_work_failure_char maxR s m fp r req own hm hs hin how
            rw [he, Option.some.injEq] at h4
            subst h4
            rw [hbc, hip, hevt]
            by_cases hc : s''.file_queue_size = 0 ∧
                (aerase s.in_progress fp).isEmpty = true
            · simp [hc.1, hc.2, List.isEmpty_iff.1 hc.2]
            · rw [if_neg hc]
              simp only [Bool.false_eq_true, false_iff]
              intro hcon
              exact hc ⟨hcon.1, by simp [hcon.2]⟩
  · intro pid s h
    rw [request_stop_creator h]
    exact ⟨rfl, rfl, rfl⟩

/-- Witness for C4 at a concrete completed success callback that finishes
the batch: afterwards the event is set and the state is quiescent. -/
theorem c4_witness :
    stInProgress.batch_completion_evt = false ∧
    memStr stInProgress.old_managers mgrEn.name = false ∧
    stInProgress.stop_requested = false ∧
    ∃ s', notify_work_success stInProgress mgrEn "f1" resOk = some s' ∧
      (s'.batch_completion_evt = true ↔
        (s'.file_queue_size = 0 ∧ s'.in_progress = [])) := by
  refine ⟨rfl, by decide, rfl, ?_⟩
  obtain ⟨s', hs'⟩ : ∃ s',
      notify_work_success stInProgress mgrEn "f1" resOk = some s' := ⟨_, rfl⟩
  exact ⟨s', hs',
    c4_completion_iff_quiescent.1 stInProgress mgrEn "f1" resOk s' rfl
      (by decide) rfl hs'⟩

theorem reassign_nil_eq {dk : List String}
    {ow : List (String × EndpointManager)}
    {kept : List (String × WorkItemRequest)} {mfps : List String}
    {mv : List WorkItemRequest}
    (h : reassign dk ow [] = some (kept, mfps, mv)) :
    kept = [] ∧ mfps = [] ∧ mv = [] := by
  simp only [reassign, Option.some.injEq] at h
  refine ⟨?_, ?_, ?_⟩
  · simpa using (congrArg Prod.fst h)
  · simpa using (congrArg (fun q => q.2.1) h)
  · simpa using (congrArg (fun q => q.2.2) h)

theorem reassign_cons_eq {dk : List String}
    {ow : List (String × EndpointManager)} {fp0 : String}
    {w0 : WorkItemRequest} {rest : List (String × WorkItemRequest)}
    {kept : List (String × WorkItemRequest)} {mfps : List String}
    {mv : List WorkItemRequest}
    (h : reassign dk ow ((fp0, w0) :: rest) = some (kept, mfps, mv)) :
    ∃ m0 k0 f0 v0, alookup ow fp0 = some m0 ∧
      reassign dk ow rest = some (k0, f0, v0) ∧
      ((memStr dk m0.endpoint_name = true ∧
          kept = k0 ∧ mfps = fp0 :: f0 ∧ mv = w0 :: v0) ∨
        (memStr dk m0.endpoint_name = false ∧
          kept = (fp0, w0) :: k0 ∧ mfps = f0 ∧ mv = v0)) := by
  simp only [reassign] at h
  cases halo : alookup ow fp0 with
  | none => rw [halo] at h; exact Option.noConfusion h
  | some m0 =>
      rw [halo] at h
      cases hr : reassign dk ow rest with
      | none => rw [hr] at h; exact Option.noConfusion h
      | some t =>
          obtain ⟨k0, f0, v0⟩ := t
          rw [hr] at h
          refine ⟨m0, k0, f0, v0, rfl, rfl, ?_⟩
          have h2 : (if memStr dk m0.endpoint_name = true
              then some (k0, fp0 :: f0, w0 :: v0)
              else some ((fp0, w0) :: k0, f0, v0)) =
              some (kept, mfps, mv) := h
          by_cases hd : memStr dk m0.endpoint_name = true
          · rw [if_pos hd, Option.some.injEq] at h2
            exact Or.inl ⟨hd,
              by simpa using (congrArg Prod.fst h2).symm,
              by simpa using (congrArg (fun q => q.2.1) h2).symm,
              by simpa using (congrArg (fun q => q.2.2) h2).symm⟩
          · rw [if_neg hd, Option.some.injEq] at h2
            exact Or.inr ⟨by simpa using hd,
              by simpa using (congrArg Prod.fst h2).symm,
              by simpa using (congrArg (fun q => q.2.1) h2).symm,
              by simpa using (congrArg (fun q => q.2.2) h2).symm⟩

theorem reassign_kept_sublist {dk : List String}
    {ow : List (String × EndpointManager)} :
    ∀ {l kept mfps mv}, reassign dk ow l = some (kept, mfps, mv) →
      kept.Sublist l := by
  intro l
  induction l with
  | nil =>
      intro kept mfps mv h
      rw [(reassign_nil_eq h).1]
  | cons p rest ih =>
      intro kept mfps mv h
      obtain ⟨fp0, w0⟩ := p
      obtain ⟨m0, k0, f0, v0, halo, hr, hcase⟩ := reassign_cons_eq h
      rcases hcase with ⟨-, hk, -, -⟩ | ⟨-, hk, -, -⟩
      · rw [hk]
        exact List.Sublist.cons _ (ih hr)
      · rw [hk]
        exact List.Sublist.cons₂ _ (ih hr)

theorem reassign_mfps_sub {dk : List String}
    {ow : List (String × EndpointManager)} :
    ∀ {l kept mfps mv}, reassign dk ow l = some (kept, mfps, mv) →
      ∀ fp ∈ mfps, fp ∈ l.map (fun q => q.1) := by
  intro l
  induction l with
  | nil =>
      intro kept mfps mv h fp hfp
      rw [(reassign_nil_eq h).2.1] at hfp
      simp at hfp
  | cons p rest ih =>
      intro kept mfps mv h fp hfp
      obtain ⟨fp0, w0⟩ := p
      obtain ⟨m0, k0, f0, v0, halo, hr, hcase⟩ := reassign_cons_eq h
      rcases hcase with ⟨-, -, hf, -⟩ | ⟨-, -, hf, -⟩
      · rw [hf] at hfp
        rcases List.mem_cons.1 hfp with hx | hx
        · subst hx
          exact List.mem_cons_self _ _
        · exact List.mem_cons.2 (Or.inr (ih hr fp hx))
      · rw [hf] at hfp
        exact List.mem_cons.2 (Or.inr (ih hr fp hfp))

theorem reassign_mem {dk : List String}
    {ow : List (String × EndpointManager)} :
    ∀ {l kept mfps mv}, reassign dk ow l = some (kept, mfps, mv) →
      ∀ fp w, (fp, w) ∈ l →
        ∃ m, alookup ow fp = some m ∧
          ((memStr dk m.endpoint_name = true ∧ fp ∈ mfps ∧ w ∈ mv) ∨
            (memStr dk m.endpoint_name = false ∧ (fp, w) ∈ kept)) := by
  intro l
  induction l with
  | nil =>
      intro kept mfps mv h fp w hmem
      simp at hmem
  | cons p rest ih =>
      intro kept mfps mv h fp w hmem
      obtain ⟨fp0, w0⟩ := p
      obtain ⟨m0, k0, f0, v0, halo, hr, hcase⟩ := reassign_cons_eq h
      rcases hcase with ⟨hd, hk, hf, hv⟩ | ⟨hd, hk, hf, hv⟩
      · subst hk; subst hf; subst hv
        rcases List.mem_cons.1 hmem with hx | hx
        · have he1 : fp = fp0 := congrArg Prod.fst hx
          have he2 : w = w0 := congrArg Prod.snd hx
          subst he1; subst he2
          exact ⟨m0, halo, Or.inl ⟨hd, List.mem_cons_self _ _,
            List.mem_cons_self _ _⟩⟩
        · obtain ⟨m, hm1, hm2⟩ := ih hr fp w hx
          refine ⟨m, hm1, ?_⟩
          rcases hm2 with ⟨ha, hb, hc⟩ | ⟨ha, hb⟩
          · exact Or.inl ⟨ha, List.mem_cons.2 (Or.inr hb),
              List.mem_cons.2 (Or.inr hc)⟩
          · exact Or.inr ⟨ha, hb⟩
      · subst hk; subst hf; subst hv
        rcases List.mem_cons.1 hmem with hx | hx
        · have he1 : fp = fp0 := congrArg Prod.fst hx
          have he2 : w = w0 := congrArg Prod.snd hx
          subst he1; subst he2
          exact ⟨m0, halo, Or.inr ⟨hd, List.mem_cons_self _ _⟩⟩
        · obtain ⟨m, hm1, hm2⟩ := ih hr fp w hx
          refine ⟨m, hm1, ?_⟩
          rcases hm2 with ⟨ha, hb, hc⟩ | ⟨ha, hb⟩
          · exact Or.inl ⟨ha, hb, hc⟩
          · exact Or.inr ⟨ha, List.mem_cons.2 (Or.inr hb)⟩

theorem reassign_moved {dk : List String}
    {ow : List (String × EndpointManager)} :
    ∀ {l kept mfps mv}, reassign dk ow l = some (kept, mfps, mv) →
      ∀ w ∈ mv, ∃ fp, (fp, w) ∈ l ∧ fp ∈ mfps := by
  intro l
  induction l with
  | nil =>
      intro kept mfps mv h w hw
      rw [(reassign_nil_eq h).2.2] at hw
      simp at hw
  | cons p rest ih =>
      intro kept mfps mv h w hw
      obtain ⟨fp0, w0⟩ := p
      obtain ⟨m0, k0, f0, v0, halo, hr, hcase⟩ := reassign_cons_eq h
      rcases hcase with ⟨-, -, hf, hv⟩ | ⟨-, -, hf, hv⟩
      · subst hf; subst hv
        rcases List.mem_cons.1 hw with hx | hx
        · subst hx
          exact ⟨fp0, List.mem_cons_self _ _, List.mem_cons_self _ _⟩
        · obtain ⟨fp, hfp1, hfp2⟩ := ih hr w hx
          exact ⟨fp, List.mem_cons.2 (Or.inr hfp1),
            List.mem_cons.2 (Or.inr hfp2)⟩
      · subst hf; subst hv
        obtain ⟨fp, hfp1, hfp2⟩ := ih hr w hw
        exact ⟨fp, List.mem_cons.2 (Or.inr hfp1), hfp2⟩

theorem reassign_not_kept {dk : List String}
    {ow : List (String × EndpointManager)} :
    ∀ {l kept mfps mv}, reassign dk ow l = some (kept, mfps, mv) →
      (l.map (fun q => q.1)).Nodup →
      ∀ fp ∈ mfps, fp ∉ kept.map (fun q => q.1) := by
  intro l
  induction l with
  | nil =>
      intro kept mfps mv h hnd fp hfp
      rw [(reassign_nil_eq h).2.1] at hfp
      simp at hfp
  | cons p rest ih =>
      intro kept mfps mv h hnd fp hfp
      obtain ⟨fp0, w0⟩ := p
      rw [List.map_cons, List.nodup_cons] at hnd
      obtain ⟨m0, k0, f0, v0, halo, hr, hcase⟩ := reassign_cons_eq h
      rcases hcase with ⟨-, hk, hf, -⟩ | ⟨-, hk, hf, -⟩
      · subst hk; subst hf
        rcases List.mem_cons.1 hfp with hx | hx
        · subst hx
          intro hc
          have hsub : (kept.map (fun q => q.1)).Sublist
              (rest.map (fun q => q.1)) :=
            (reassign_kept_sublist hr).map _
          exact hnd.1 (hsub.subset hc)
        · exact ih hr hnd.2 fp hx
      · subst hk; subst hf
        intro hc
        rw [List.map_cons] at hc
        rcases List.mem_cons.1 hc with hx | hx
        · exact hnd.1 (hx ▸ reassign_mfps_sub hr fp hfp)
        · exact ih hr hnd.2 fp hfp hx

theorem alookup_filter_of_key {α : Type} {l : List (String × α)}
    {p : String → Bool} {fp : String} (hp : p fp = true) :
    alookup (l.filter (fun q => p q.1)) fp = alookup l fp := by
  induction l with
  | nil => simp [alookup]
  | cons q rest ih =>
      by_cases hq : q.1 = fp
      · have : p q.1 = true := hq ▸ hp
        rw [List.filter_cons, if_pos (by simpa using this)]
        simp [alookup, hq]
      · by_cases hpq : p q.1 = true
        · rw [List.filter_cons, if_pos (by simpa using hpq)]
          simp [alookup, hq, ih]
        · rw [List.filter_cons, if_neg (by simpa using hpq)]
          simp [alookup, hq, ih]



theorem hotswap_char {procType : Nat}
    {cfg : List (String × List (String × String))} {s : OrchState}
    {kept : List (String × WorkItemRequest)} {mfps : List String}
    {mv : List WorkItemRequest}
    (hstop : s.stop_requested = false)
    (hre : reassign ((hotswapDeleted procType cfg s).map (fun q => q.1))
      s.in_progress_owner s.in_progress = some (kept, mfps, mv)) :
    hotswap_endpoint_managers procType cfg s = some
      { s with
        endpoint_generation := s.endpoint_generation + 1,
        old_managers := addStrs s.old_managers
          (s.endpoint_managers.filterMap (fun m =>
            if memStr ((hotswapDeleted procType cfg s).map (fun q => q.1))
                m.endpoint_name then some m.name else none)),
        in_progress := kept,
        in_progress_owner := s.in_progress_owner.filter
          (fun q => !(memStr mfps q.1)),
        file_queue := s.file_queue ++ mv,
        file_queue_size := s.file_queue_size + mv.length,
        cond_broadcast := s.cond_broadcast + 1,
        endpoint_managers :=
          (s.endpoint_managers.filter (fun m =>
            !(memStr ((hotswapDeleted procType cfg s).map (fun q => q.1))
              m.endpoint_name))) ++
          (hotswapDiffFold procType s.endpoint_generation cfg
            (buildDeleted s.endpoint_managers)).2 } := by
  unfold hotswapDeleted at hre
  unfold hotswap_endpoint_managers hotswapDeleted
  rw [if_neg (by simp [hstop])]
  simp only [hre]

/-- C1: a hotswap that completes on a valid configuration loses no work
item: every item previously in `in_progress` is afterwards either still in
`in_progress` with an owner whose endpoint survives (is not in the deleted
map) or has been pushed back onto the work queue, and afterwards no item is
simultaneously on the queue and in `in_progress`. -/
theorem c1_hotswap_preserves_membership (procType : Nat)
    (cfg : List (String × List (String × String))) (s s' : OrchState)
    (h1 : s.stop_requested = false)
    (h2 : ∀ p ∈ s.in_progress, p.2.filepath = p.1)
    (h3 : (s.in_progress.map (fun q => q.1)).Nodup)
    (h4 : ∀ w ∈ s.file_queue, alookup s.in_progress w.filepath = none)
    (h5 : hotswap_endpoint_managers procType cfg s = some s') :
    (∀ fp w, alookup s.in_progress fp = some w →
      (alookup s'.in_progress fp = some w ∧
        ∃ m, alookup s'.in_progress_owner fp = some m ∧
          alookup (hotswapDeleted procType cfg s) m.endpoint_name = none) ∨
      (w ∈ s'.file_queue ∧ alookup s'.in_progress fp = none)) ∧
    (∀ w ∈ s'.file_queue, alookup s'.in_progress w.filepath = none) := by
  cases hre : reassign ((hotswapDeleted procType cfg s).map (fun q => q.1))
      s.in_progress_owner s.in_progress with
  | none =>
      exfalso
      unfold hotswapDeleted at hre
      unfold hotswap_endpoint_managers at h5
      rw [if_neg (by simp [h1])] at h5
      simp only [hre] at h5
      exact Option.noConfusion h5
  | some t =>
      obtain ⟨kept, mfps, mv⟩ := t
      rw [hotswap_char h1 hre, Option.some.injEq] at h5
      subst h5
      have hkq : ∀ fp, fp ∈ mfps → alookup kept fp = none := by
        intro fp hfp
        exact alookup_eq_none.2 (reassign_not_kept hre h3 fp hfp)
      have hkn : (kept.map (fun q => q.1)).Nodup :=
        ((reassign_kept_sublist hre).map _).nodup h3
      constructor
      · intro fp w hfw
        have hmem : (fp, w) ∈ s.in_progress := alookup_mem hfw
        obtain ⟨m, hm1, hm2⟩ := reassign_mem hre fp w hmem
        rcases hm2 with ⟨hd, hfpm, hwm⟩ | ⟨hd, hkept⟩
        · refine Or.inr ⟨?_, ?_⟩
          · show w ∈ s.file_queue ++ mv
            exact List.mem_append.2 (Or.inr hwm)
          · show alookup kept fp = none
            exact hkq fp hfpm
        · refine Or.inl ⟨?_, m, ?_, ?_⟩
          · show alookup kept fp = some w
            exact mem_alookup hkn hkept
          · show alookup (s.in_progress_owner.filter
                (fun q => !(memStr mfps q.1))) fp = some m
            have hfpnot : fp ∉ mfps := by
              intro hc
              exact reassign_not_kept hre h3 fp hc
                (List.mem_map.2 ⟨(fp, w), hkept, rfl⟩)
            have hval : memStr mfps fp = false := by
              cases hmv : memStr mfps fp
              · rfl
              · exact absurd (memStr_iff.1 hmv) hfpnot
            have hp : (!(memStr mfps fp)) = true := by
              rw [hval]
              rfl
            exact (alookup_filter_of_key
              (p := fun k => !(memStr mfps k)) hp).trans hm1
          · refine alookup_eq_none.2 ?_
            intro hc
            rw [← memStr_iff] at hc
            rw [hc] at hd
            exact Bool.noConfusion hd
      · intro w hw
        rcases List.mem_append.1 hw with hx | hx
        · show alookup kept w.filepath = none
          refine alookup_eq_none.2 ?_
          intro hc
          have hsub : (kept.map (fun q => q.1)).Sublist
              (s.in_progress.map (fun q => q.1)) :=
            (reassign_kept_sublist hre).map _
          exact alookup_eq_none.1 (h4 w hx) (hsub.subset hc)
        · show alookup kept w.filepath = none
          obtain ⟨fp, hfp1, hfp2⟩ := reassign_moved hre w hx
          have : w.filepath = fp := h2 (fp, w) hfp1
          rw [this]
          exact hkq fp hfp2

/-- Witness for C1 at a concrete hotswap: endpoint `E1` is replaced by
`E2`, and the single in-progress item owned by `E1` is pushed back onto
the queue. -/
theorem c1_witness :
    stHS.stop_requested = false ∧
    (∀ p ∈ stHS.in_progress, p.2.filepath = p.1) ∧
    (stHS.in_progress.map (fun q => q.1)).Nodup ∧
    (∀ w ∈ stHS.file_queue, alookup stHS.in_progress w.filepath = none) ∧
    ∃ s', hotswap_endpoint_managers 0 cfgSwap stHS = some s' ∧
      ((∀ fp w, alookup stHS.in_progress fp = some w →
        (alookup s'.in_progress fp = some w ∧
          ∃ m, alookup s'.in_progress_owner fp = some m ∧
            alookup (hotswapDeleted 0 cfgSwap stHS) m.endpoint_name = none) ∨
        (w ∈ s'.file_queue ∧ alookup s'.in_progress fp = none)) ∧
      (∀ w ∈ s'.file_queue, alookup s'.in_progress w.filepath = none)) := by
  refine ⟨rfl, by decide, by decide, by decide, ?_⟩
  obtain ⟨s', hs'⟩ : ∃ s',
      hotswap_endpoint_managers 0 cfgSwap stHS = some s' := ⟨_, rfl⟩
  exact ⟨s', hs',
    c1_hotswap_preserves_membership 0 cfgSwap stHS s' rfl (by decide)
      (by decide) (by decide) hs'⟩

theorem mem_aset {α : Type} {l : List (String × α)} {k : String} {v : α}
    {p : String × α} (h : p ∈ aset l k v) : p = (k, v) ∨ p ∈ l := by
  unfold aset at h
  by_cases hk : hasKey l k
  · rw [if_pos hk] at h
    obtain ⟨q, hq, hpq⟩ := List.mem_map.1 h
    by_cases hq1 : q.1 = k
    · rw [if_pos hq1] at hpq
      exact Or.inl hpq.symm
    · rw [if_neg hq1] at hpq
      exact Or.inr (hpq ▸ hq)
  · rw [if_neg hk] at h
    rcases List.mem_append.1 h with hx | hx
    · exact Or.inr hx
    · exact Or.inl (by simpa using hx)

theorem reassign_moved_map {dk : List String}
    {ow : List (String × EndpointManager)} :
    ∀ {l kept mfps mv}, reassign dk ow l = some (kept, mfps, mv) →
      (∀ p ∈ l, p.2.filepath = p.1) →
      mv.map (fun w => w.filepath) = mfps := by
  intro l
  induction l with
  | nil =>
      intro kept mfps mv h hkeys
      obtain ⟨-, hf, hv⟩ := reassign_nil_eq h
      rw [hf, hv]
      rfl
  | cons p rest ih =>
      intro kept mfps mv h hkeys
      obtain ⟨fp0, w0⟩ := p
      obtain ⟨m0, k0, f0, v0, halo, hr, hcase⟩ := reassign_cons_eq h
      have hrest : ∀ p ∈ rest, p.2.filepath = p.1 :=
        fun q hq => hkeys q (List.mem_cons.2 (Or.inr hq))
      rcases hcase with ⟨-, -, hf, hv⟩ | ⟨-, -, hf, hv⟩
      · subst hf; subst hv
        rw [List.map_cons, ih hr hrest]
        have : w0.filepath = fp0 :=
          hkeys (fp0, w0) (List.mem_cons_self _ _)
        rw [this]
      · subst hf; subst hv
        exact ih hr hrest

theorem reassign_mfps_nodup {dk : List String}
    {ow : List (String × EndpointManager)} :
    ∀ {l kept mfps mv}, reassign dk ow l = some (kept, mfps, mv) →
      (l.map (fun q => q.1)).Nodup → mfps.Nodup := by
  intro l
  induction l with
  | nil =>
      intro kept mfps mv h hnd
      rw [(reassign_nil_eq h).2.1]
      exact List.nodup_nil
  | cons p rest ih =>
      intro kept mfps mv h hnd
      obtain ⟨fp0, w0⟩ := p
      rw [List.map_cons, List.nodup_cons] at hnd
      obtain ⟨m0, k0, f0, v0, halo, hr, hcase⟩ := reassign_cons_eq h
      rcases hcase with ⟨-, -, hf, -⟩ | ⟨-, -, hf, -⟩
      · subst hf
        refine List.nodup_cons.2 ⟨?_, ih hr hnd.2⟩
        intro hc
        exact hnd.1 (reassign_mfps_sub hr fp0 hc)
      · subst hf
        exact ih hr hnd.2

theorem steal_cases {s s' : OrchState} {m : EndpointManager}
    (h : stealNextState (steal_work_step s m) = some s') :
    s' = s ∨
    (∃ w rest, s.file_queue = w :: rest ∧ s.file_queue_size > 0 ∧
      s' = { s with
        file_queue := rest ++ [w],
        file_queue_size := s.file_queue_size - 1 + 1,
        cond_notify := s.cond_notify + 1 }) ∨
    (∃ w rest, s.file_queue = w :: rest ∧ s.file_queue_size > 0 ∧
      s' = { s with
        file_queue := rest,
        file_queue_size := s.file_queue_size - 1,
        in_progress := aset s.in_progress w.filepath w,
        in_progress_owner := aset s.in_progress_owner w.filepath m }) := by
  unfold steal_work_step at h
  by_cases h1 : (memStr s.old_managers m.name = true ∨ s.stop_requested = true)
  · rw [if_pos h1] at h
    exact Or.inl (Option.some.inj h).symm
  · rw [if_neg h1] at h
    by_cases h2 : s.file_queue_size > 0
    · rw [if_pos h2] at h
      cases hq : s.file_queue with
      | nil =>
          rw [hq] at h
          exact Option.noConfusion h
      | cons w rest =>
          rw [hq] at h
          cases hlang : w.language with
          | none =>
              simp only [hlang, stealNextState, Option.some.injEq] at h
              exact Or.inr (Or.inr ⟨w, rest, rfl, h2, h.symm⟩)
          | some wl =>
              simp only [hlang] at h
              by_cases hwl : wl ≠ ""
              · rw [if_pos hwl] at h
                cases halo : alookup m.endpoint_config "language" with
                | none =>
                    rw [halo] at h
                    exact Option.noConfusion h
                | some ml =>
                    rw [halo] at h
                    by_cases hml : strLower ml ≠ strLower wl
                    · simp only [if_pos hml, stealNextState,
                        Option.some.injEq] at h
                      exact Or.inr (Or.inl ⟨w, rest, rfl, h2, h.symm⟩)
                    · simp only [if_neg hml, stealNextState,
                        Option.some.injEq] at h
                      exact Or.inr (Or.inr ⟨w, rest, rfl, h2, h.symm⟩)
              · rw [if_neg hwl] at h
                simp only [stealNextState, Option.some.injEq] at h
                exact Or.inr (Or.inr ⟨w, rest, rfl, h2, h.symm⟩)
    · rw [if_neg h2] at h
      simp only [stealNextState, Option.some.injEq] at h
      exact Or.inl h.symm

theorem inv_steal {maxR : Nat} {s s' : OrchState} {m : EndpointManager}
    (hInv : Inv maxR s)
    (h : stealNextState (steal_work_step s m) = some s') : Inv maxR s' := by
  rcases steal_cases h with he | ⟨w, rest, hq, h2, he⟩ | ⟨w, rest, hq, h2, he⟩
  · rw [he]
    exact hInv
  · subst he
    obtain ⟨hsz, hnd, hdis, hkeys, hipnd, hatt⟩ := hInv
    rw [hq] at hsz hnd hdis
    have hperm : (rest ++ [w]).Perm (w :: rest) :=
      List.perm_append_singleton w rest
    have hpermf : ((rest ++ [w]).map (fun u => u.filepath)).Perm
        ((w :: rest).map (fun u => u.filepath)) :=
      hperm.map _
    constructor
    · show s.file_queue_size - 1 + 1 = (rest ++ [w]).length
      simp only [List.length_cons] at hsz
      simp [hsz]
    · show ((rest ++ [w]).map (fun u => u.filepath)).Nodup
      exact hpermf.nodup_iff.2 hnd
    · intro u hu
      show alookup s.in_progress u.filepath = none
      exact hdis u (hperm.subset hu)
    · exact hkeys
    · exact hipnd
    · intro fp r hfr
      obtain ⟨hb1, hb2⟩ := hatt fp r hfr
      refine ⟨hb1, ?_⟩
      intro hpre
      apply hb2
      rcases hpre with hx | hx
      · refine Or.inl ?_
        rw [hq]
        exact hpermf.subset hx
      · exact Or.inr hx
  · subst he
    obtain ⟨hsz, hnd, hdis, hkeys, hipnd, hatt⟩ := hInv
    rw [hq] at hsz hnd hdis
    rw [List.map_cons, List.nodup_cons] at hnd
    constructor
    · show s.file_queue_size - 1 = rest.length
      simp only [List.length_cons] at hsz
      omega
    · exact hnd.2
    · intro u hu
      show alookup (aset s.in_progress w.filepath w) u.filepath = none
      have hne : u.filepath ≠ w.filepath := by
        intro hc
        exact hnd.1 (hc ▸ List.mem_map.2 ⟨u, hu, rfl⟩)
      rw [alookup_aset, if_neg hne]
      exact hdis u (List.mem_cons.2 (Or.inr hu))
    · intro p hp
      rcases mem_aset hp with hx | hx
      · rw [hx]
      · exact hkeys p hx
    · exact nodup_keys_aset hipnd
    · intro fp r hfr
      obtain ⟨hb1, hb2⟩ := hatt fp r hfr
      refine ⟨hb1, ?_⟩
      intro hpre
      apply hb2
      rcases hpre with hx | hx
      · refine Or.inl ?_
        rw [hq, List.map_cons]
        exact List.mem_cons.2 (Or.inr hx)
      · rw [alookup_aset] at hx
        by_cases hfp : fp = w.filepath
        · refine Or.inl ?_
          rw [hq, List.map_cons, hfp]
          exact List.mem_cons_self _ _
        · rw [if_neg hfp] at hx
          exact Or.inr hx

theorem notify_work_success_stopped {s : OrchState} {m : EndpointManager}
    {fp : String} {r : WorkItemResult}
    (hm : memStr s.old_managers m.name = false)
    (hs : s.stop_requested = true) :
    notify_work_success s m fp r =
      some { s with cnt_work_success_cb := s.cnt_work_success_cb + 1 } := by
  unfold notify_work_success
  simp [hm, hs]

theorem notify_work_failure_stopped {maxR : Nat} {s : OrchState}
    {m : EndpointManager} {fp : String} {r : WorkItemResult}
    (hm : memStr s.old_managers m.name = false)
    (hs : s.stop_requested = true) :
    notify_work_failure maxR s m fp r =
      some { s with cnt_work_failure_cb := s.cnt_work_failure_cb + 1 } := by
  unfold notify_work_failure
  simp [hm, hs]

theorem queue_not_mem_of_inprog {maxR : Nat} {s : OrchState} {fp : String}
    {req : WorkItemRequest} (hInv : Inv maxR s)
    (hin : alookup s.in_progress fp = some req) :
    fp ∉ s.file_queue.map (fun w => w.filepath) := by
  intro hc
  obtain ⟨u, hu, hufp⟩ := List.mem_map.1 hc
  have := hInv.disjoint u hu
  rw [hufp, hin] at this
  exact Option.noConfusion this

theorem mergedResult_attempts_le {maxR : Nat} {s : OrchState} {fp : String}
    {r : WorkItemResult} {req : WorkItemRequest} (hInv : Inv maxR s)
    (hr1 : r.attempts = 1)
    (hin : alookup s.in_progress fp = some req) :
    (mergedResult s.work_results fp r).attempts ≤ maxR + 1 := by
  unfold mergedResult
  cases hw : alookup s.work_results fp with
  | none =>
      rw [hr1]
      omega
  | some o =>
      cases o with
      | none =>
          rw [hr1]
          omega
      | some prev =>
          have hb := (hInv.attempts_bound fp prev hw).2
            (Or.inr (by rw [hin]; rfl))
          simp only [hr1]
          omega

theorem inv_success {maxR : Nat} {s s' : OrchState} {m : EndpointManager}
    {fp : String} {r : WorkItemResult}
    (hInv : Inv maxR s) (hr1 : r.attempts = 1)
    (h : notify_work_success s m fp r = some s') : Inv maxR s' := by
  by_cases hm : memStr s.old_managers m.name = true
  · rw [notify_work_success_retired hm, Option.some.injEq] at h
    subst h
    exact ⟨hInv.size_eq, hInv.queue_nodup, hInv.disjoint, hInv.inprog_keys,
      hInv.inprog_nodup, hInv.attempts_bound⟩
  · have hm' : memStr s.old_managers m.name = false := by
      cases hx : memStr s.old_managers m.name
      · rfl
      · exact absurd hx hm
    by_cases hs : s.stop_requested = true
    · rw [notify_work_success_stopped hm' hs, Option.some.injEq] at h
      subst h
      exact ⟨hInv.size_eq, hInv.queue_nodup, hInv.disjoint, hInv.inprog_keys,
        hInv.inprog_nodup, hInv.attempts_bound⟩
    · have hs' : s.stop_requested = false := by
        cases hx : s.stop_requested
        · rfl
        · exact absurd hx hs
      cases hin : alookup s.in_progress fp with
      | none => simp [notify_work_success, hm', hs', hin] at h
      | some req =>
          cases how : alookup s.in_progress_owner fp with
          | none => simp [notify_work_success, hm', hs', hin, how] at h
          | some own =>
              obtain ⟨s'', he, hq', hsz', hip', how', hwr', -⟩ :=
                notify_work_success_char (r := r) hm' hs' hin how
              rw [he, Option.some.injEq] at h
              subst h
              constructor
              · rw [hsz', hq']
                exact hInv.size_eq
              · rw [hq']
                exact hInv.queue_nodup
              · intro u hu
                rw [hq'] at hu
                rw [hip', alookup_aerase]
                by_cases hufp : u.filepath = fp
                · rw [if_pos hufp]
                · rw [if_neg hufp]
                  exact hInv.disjoint u hu
              · intro p hp
                rw [hip'] at hp
                exact hInv.inprog_keys p (mem_aerase.1 hp).1
              · rw [hip']
                exact keys_aerase_sublist.nodup hInv.inprog_nodup
              · intro fp' r' hfr'
                rw [hwr'] at hfr'
                by_cases hfp : fp' = fp
                · subst hfp
                  rw [merge_lookup_self, Option.some.injEq,
                    Option.some.injEq] at hfr'
                  subst hfr'
                  refine ⟨mergedResult_attempts_le hInv hr1 hin, ?_⟩
                  intro hpre
                  exfalso
                  rcases hpre with hx | hx
                  · rw [hq'] at hx
                    exact queue_not_mem_of_inprog hInv hin hx
                  · rw [hip', alookup_aerase, if_pos rfl] at hx
                    exact Bool.noConfusion hx
                · rw [merge_lookup_ne hfp] at hfr'
                  obtain ⟨hb1, hb2⟩ := hInv.attempts_bound fp' r' hfr'
                  refine ⟨hb1, ?_⟩
                  intro hpre
                  apply hb2
                  rcases hpre with hx | hx
                  · rw [hq'] at hx
                    exact Or.inl hx
                  · rw [hip', alookup_aerase, if_neg hfp] at hx
                    exact Or.inr hx

theorem inv_failure {maxR : Nat} {s s' : OrchState} {m : EndpointManager}
    {fp : String} {r : WorkItemResult}
    (hInv : Inv maxR s) (hr1 : r.attempts = 1)
    (h : notify_work_failure maxR s m fp r = some s') : Inv maxR s' := by
  by_cases hm : memStr s.old_managers m.name = true
  · rw [notify_work_failure_retired hm, Option.some.injEq] at h
    subst h
    exact ⟨hInv.size_eq, hInv.queue_nodup, hInv.disjoint, hInv.inprog_keys,
      hInv.inprog_nodup, hInv.attempts_bound⟩
  · have hm' : memStr s.old_managers m.name = false := by
      cases hx : memStr s.old_managers m.name
      · rfl
      · exact absurd hx hm
    by_cases hs : s.stop_requested = true
    · rw [notify_work_failure_stopped hm' hs, Option.some.injEq] at h
      subst h
      exact ⟨hInv.size_eq, hInv.queue_nodup, hInv.disjoint, hInv.inprog_keys,
        hInv.inprog_nodup, hInv.attempts_bound⟩
    · have hs' : s.stop_requested = false := by
        cases hx : s.stop_requested
        · rfl
        · exact absurd hx hs
      cases hin : alookup s.in_progress fp with
      | none => simp [notify_work_failure, hm', hs', hin] at h
      | some req =>
          cases how : alookup s.in_progress_owner fp with
          | none => simp [notify_work_failure, hm', hs', hin, how] at h
          | some own =>
              obtain ⟨s'', he, hq', hsz', hip', how', hwr', hcn', -⟩ :=
                @notify_work_failure_char maxR s m fp r req own hm' hs' hin how
              rw [he, Option.some.injEq] at h
              subst h
              have hreqfp : req.filepath = fp :=
                hInv.inprog_keys (fp, req) (alookup_mem hin)
              have hfpq : fp ∉ s.file_queue.map (fun w => w.filepath) :=
                queue_not_mem_of_inprog hInv hin
              by_cases hP : r.can_retry = true ∧
                  ((mergedResult s.work_results fp r).attempts : Int) - 1 <
                    (maxR : Int)
              · rw [if_pos hP] at hq' hsz'
                constructor
                · rw [hsz', hq']
                  simp [hInv.size_eq]
                · rw [hq', List.map_append]
                  rw [List.nodup_append]
                  refine ⟨hInv.queue_nodup, by simp [hreqfp], ?_⟩
                  intro a ha hb
                  simp [hreqfp] at hb
                  rw [hb] at ha
                  exact hfpq ha
                · intro u hu
                  rw [hq'] at hu
                  rw [hip', alookup_aerase]
                  by_cases hufp : u.filepath = fp
                  · rw [if_pos hufp]
                  · rw [if_neg hufp]
                    rcases List.mem_append.1 hu with hx | hx
                    · exact hInv.disjoint u hx
                    · simp at hx
                      rw [hx] at hufp
                      exact absurd hreqfp hufp
                · intro p hp
                  rw [hip'] at hp
                  exact hInv.inprog_keys p (mem_aerase.1 hp).1
                · rw [hip']
                  exact keys_aerase_sublist.nodup hInv.inprog_nodup
                · intro fp' r' hfr'
                  rw [hwr'] at hfr'
                  by_cases hfp : fp' = fp
                  · subst hfp
                    rw [merge_lookup_self, Option.some.injEq,
                      Option.some.injEq] at hfr'
                    subst hfr'
                    refine ⟨mergedResult_attempts_le hInv hr1 hin, ?_⟩
                    intro hpre
                    have := hP.2
                    omega
                  · rw [merge_lookup_ne hfp] at hfr'
                    obtain ⟨hb1, hb2⟩ := hInv.attempts_bound fp' r' hfr'
                    refine ⟨hb1, ?_⟩
                    intro hpre
                    apply hb2
                    rcases hpre with hx | hx
                    · rw [hq', List.map_append] at hx
                      rcases List.mem_append.1 hx with hy | hy
                      · exact Or.inl hy
                      · simp [hreqfp] at hy
                        exact absurd hy hfp
                    · rw [hip', alookup_aerase, if_neg hfp] at hx
                      exact Or.inr hx
              · rw [if_neg hP] at hq' hsz'
                constructor
                · rw [hsz', hq']
                  exact hInv.size_eq
                · rw [hq']
                  exact hInv.queue_nodup
                · intro u hu
                  rw [hq'] at hu
                  rw [hip', alookup_aerase]
                  by_cases hufp : u.filepath = fp
                  · rw [if_pos hufp]
                  · rw [if_neg hufp]
                    exact hInv.disjoint u hu
                · intro p hp
                  rw [hip'] at hp
                  exact hInv.inprog_keys p (mem_aerase.1 hp).1
                · rw [hip']
                  exact keys_aerase_sublist.nodup hInv.inprog_nodup
                · intro fp' r' hfr'
                  rw [hwr'] at hfr'
                  by_cases hfp : fp' = fp
                  · subst hfp
                    rw [merge_lookup_self, Option.some.injEq,
                      Option.some.injEq] at hfr'
                    subst hfr'
                    refine ⟨mergedResult_attempts_le hInv hr1 hin, ?_⟩
                    intro hpre
                    exfalso
                    rcases hpre with hx | hx
                    · rw [hq'] at hx
                      exact hfpq hx
                    · rw [hip', alookup_aerase, if_pos rfl] at hx
                      exact Bool.noConfusion hx
                  · rw [merge_lookup_ne hfp] at hfr'
                    obtain ⟨hb1, hb2⟩ := hInv.attempts_bound fp' r' hfr'
                    refine ⟨hb1, ?_⟩
                    intro hpre
                    apply hb2
                    rcases hpre with hx | hx
                    · rw [hq'] at hx
                      exact Or.inl hx
                    · rw [hip', alookup_aerase, if_neg hfp] at hx
                      exact Or.inr hx

theorem inv_transfer {maxR : Nat} {t t' : OrchState} (hInv : Inv maxR t)
    (hq : t'.file_queue = t.file_queue)
    (hs : t'.file_queue_size = t.file_queue_size)
    (hip : t'.in_progress = t.in_progress)
    (hwr : t'.work_results = t.work_results) : Inv maxR t' := by
  constructor
  · rw [hq, hs]
    exact hInv.size_eq
  · rw [hq]
    exact hInv.queue_nodup
  · intro u hu
    rw [hip]
    exact hInv.disjoint u (hq ▸ hu)
  · intro p hp
    exact hInv.inprog_keys p (hip ▸ hp)
  · rw [hip]
    exact hInv.inprog_nodup
  · intro fp r hfr
    rw [hwr] at hfr
    obtain ⟨h1, h2⟩ := hInv.attempts_bound fp r hfr
    refine ⟨h1, ?_⟩
    intro hpre
    apply h2
    rcases hpre with hx | hx
    · exact Or.inl (hq ▸ hx)
    · exact Or.inr (hip ▸ hx)

theorem inv_cancel {maxR : Nat} {s : OrchState} {bid : Int}
    (hInv : Inv maxR s) : Inv maxR (cancel_running_batch s bid).2 := by
  unfold cancel_running_batch
  by_cases hb : s.on_batch_id ≠ bid
  · rw [if_pos hb]
    exact hInv
  · rw [if_neg hb]
    have hqe : drainN s.file_queue_size s.file_queue = [] := by
      rw [drainN_eq_drop, hInv.size_eq]
      exact List.drop_length s.file_queue
    constructor
    · show (0 : Nat) = (drainN s.file_queue_size s.file_queue).length
      rw [hqe]
      rfl
    · show ((drainN s.file_queue_size s.file_queue).map
        (fun u => u.filepath)).Nodup
      rw [hqe]
      exact List.nodup_nil
    · intro u hu
      rw [hqe] at hu
      simp at hu
    · intro p hp
      simp at hp
    · show (([] : List (String × WorkItemRequest)).map (fun q => q.1)).Nodup
      exact List.nodup_nil
    · intro fp r hfr
      obtain ⟨h1, -⟩ := hInv.attempts_bound fp r hfr
      refine ⟨h1, ?_⟩
      intro hpre
      exfalso
      rcases hpre with hx | hx
      · rw [hqe] at hx
        simp at hx
      · simp [alookup] at hx

theorem inv_stop {maxR : Nat} {s : OrchState} {pid : Nat}
    (hInv : Inv maxR s) : Inv maxR (request_stop pid s) := by
  by_cases hp : pid ≠ s.creator_pid
  · unfold request_stop
    rw [if_pos hp]
    exact hInv
  · have hp' : pid = s.creator_pid := not_not.1 hp
    rw [request_stop_creator hp']
    have hqe : drainN s.file_queue_size s.file_queue = [] := by
      rw [drainN_eq_drop, hInv.size_eq]
      exact List.drop_length s.file_queue
    constructor
    · show (0 : Nat) = (drainN s.file_queue_size s.file_queue).length
      rw [hqe]
      rfl
    · show ((drainN s.file_queue_size s.file_queue).map
        (fun u => u.filepath)).Nodup
      rw [hqe]
      exact List.nodup_nil
    · intro u hu
      have hu' : u ∈ drainN s.file_queue_size s.file_queue := hu
      rw [hqe] at hu'
      simp at hu'
    · intro p hp2
      exact hInv.inprog_keys p hp2
    · exact hInv.inprog_nodup
    · intro fp r hfr
      obtain ⟨h1, h2⟩ := hInv.attempts_bound fp r hfr
      refine ⟨h1, ?_⟩
      intro hpre
      apply h2
      rcases hpre with hx | hx
      · exfalso
        have hx' : fp ∈ (drainN s.file_queue_size s.file_queue).map
            (fun u => u.filepath) := hx
        rw [hqe] at hx'
        simp at hx'
      · exact Or.inr hx

theorem inv_hotswap {maxR procType : Nat}
    {cfg : List (String × List (String × String))} {s s' : OrchState}
    (hInv : Inv maxR s)
    (h : hotswap_endpoint_managers procType cfg s = some s') :
    Inv maxR s' := by
  by_cases hstop : s.stop_requested = true
  · have he : hotswap_endpoint_managers procType cfg s = some s := by
      unfold hotswap_endpoint_managers
      rw [if_pos hstop]
    rw [he, Option.some.injEq] at h
    subst h
    exact hInv
  · have hs' : s.stop_requested = false := by
      cases hx : s.stop_requested
      · rfl
      · exact absurd hx hstop
    cases hre : reassign ((hotswapDeleted procType cfg s).map (fun q => q.1))
        s.in_progress_owner s.in_progress with
    | none =>
        exfalso
        unfold hotswapDeleted at hre
        unfold hotswap_endpoint_managers at h
        rw [if_neg (by simp [hs'])] at h
        simp only [hre] at h
        exact Option.noConfusion h
    | some t =>
        obtain ⟨kept, mfps, mv⟩ := t
        rw [hotswap_char hs' hre, Option.some.injEq] at h
        subst h
        have hmvmap : mv.map (fun w => w.filepath) = mfps :=
          reassign_moved_map hre hInv.inprog_keys
        have hnk := reassign_not_kept hre hInv.inprog_nodup
        have hkn : (kept.map (fun q => q.1)).Nodup :=
          ((reassign_kept_sublist hre).map _).nodup hInv.inprog_nodup
        have hsubk : (kept.map (fun q => q.1)).Sublist
            (s.in_progress.map (fun q => q.1)) :=
          (reassign_kept_sublist hre).map _
        constructor
        · show s.file_queue_size + mv.length = (s.file_queue ++ mv).length
          rw [List.length_append, hInv.size_eq]
        · show ((s.file_queue ++ mv).map (fun u => u.filepath)).Nodup
          rw [List.map_append, List.nodup_append]
          refine ⟨hInv.queue_nodup, ?_, ?_⟩
          · rw [hmvmap]
            exact reassign_mfps_nodup hre hInv.inprog_nodup
          · intro a ha hb
            rw [hmvmap] at hb
            have hak : a ∈ s.in_progress.map (fun q => q.1) :=
              reassign_mfps_sub hre a hb
            obtain ⟨u, hu, hufp⟩ := List.mem_map.1 ha
            have hd := hInv.disjoint u hu
            rw [hufp, alookup_eq_none] at hd
            exact hd hak
        · intro u hu
          show alookup kept u.filepath = none
          rcases List.mem_append.1 hu with hx | hx
          · refine alookup_eq_none.2 ?_
            intro hc
            exact alookup_eq_none.1 (hInv.disjoint u hx) (hsubk.subset hc)
          · have hufp : u.filepath ∈ mfps := by
              rw [← hmvmap]
              exact List.mem_map.2 ⟨u, hx, rfl⟩
            exact alookup_eq_none.2 (hnk _ hufp)
        · intro p hp
          exact hInv.inprog_keys p ((reassign_kept_sublist hre).subset hp)
        · exact hkn
        · intro fp r hfr
          obtain ⟨hb1, hb2⟩ := hInv.attempts_bound fp r hfr
          refine ⟨hb1, ?_⟩
          intro hpre
          apply hb2
          rcases hpre with hx | hx
          · have hx' : fp ∈ (s.file_queue ++ mv).map
                (fun u => u.filepath) := hx
            rw [List.map_append] at hx'
            rcases List.mem_append.1 hx' with hy | hy
            · exact Or.inl hy
            · rw [hmvmap] at hy
              refine Or.inr ?_
              rw [alookup_isSome]
              exact reassign_mfps_sub hre fp hy
          · refine Or.inr ?_
            have hx' : (alookup kept fp).isSome = true := hx
            rw [alookup_isSome] at hx' ⊢
            exact hsubk.subset hx'

theorem batch_fold_inv (maxR : Nat) :
    ∀ (items : List WorkItemRequest) (t : OrchState),
      Inv maxR t → t.in_progress = [] →
      (items.map (fun w => w.filepath)).Nodup →
      (∀ w ∈ items, w.filepath ∉ t.file_queue.map (fun u => u.filepath)) →
      Inv maxR (items.foldl (fun t w => { t with
        file_queue := t.file_queue ++ [w],
        file_queue_size := t.file_queue_size + 1,
        work_results := aset t.work_results w.filepath none }) t) := by
  intro items
  induction items with
  | nil =>
      intro t hInv _ _ _
      exact hInv
  | cons w ws ih =>
      intro t hInv hip hnd hdisj
      rw [List.foldl_cons]
      rw [List.map_cons, List.nodup_cons] at hnd
      apply ih
      · constructor
        · show t.file_queue_size + 1 = (t.file_queue ++ [w]).length
          rw [List.length_append, hInv.size_eq]
          rfl
        · show ((t.file_queue ++ [w]).map (fun u => u.filepath)).Nodup
          rw [List.map_append, List.nodup_append]
          refine ⟨hInv.queue_nodup, by simp, ?_⟩
          intro a ha hb
          simp at hb
          rw [hb] at ha
          exact hdisj w (List.mem_cons_self _ _) ha
        · intro u hu
          show alookup t.in_progress u.filepath = none
          rw [hip]
          rfl
        · intro p hp
          exact hInv.inprog_keys p hp
        · exact hInv.inprog_nodup
        · intro fp r hfr
          have hfr2 : alookup (aset t.work_results w.filepath none) fp =
              some (some r) := hfr
          rw [alookup_aset] at hfr2
          by_cases hfp : fp = w.filepath
          · rw [if_pos hfp] at hfr2
            exact absurd hfr2 (by simp)
          · rw [if_neg hfp] at hfr2
            obtain ⟨h1, h2⟩ := hInv.attempts_bound fp r hfr2
            refine ⟨h1, ?_⟩
            intro hpre
            apply h2
            rcases hpre with hx | hx
            · have hx' : fp ∈ (t.file_queue ++ [w]).map
                  (fun u => u.filepath) := hx
              rw [List.map_append] at hx'
              rcases List.mem_append.1 hx' with hy | hy
              · exact Or.inl hy
              · simp at hy
                exact absurd hy hfp
            · exact Or.inr hx
      · exact hip
      · exact hnd.2
      · intro u hu
        show u.filepath ∉ (t.file_queue ++ [w]).map (fun u => u.filepath)
        rw [List.map_append]
        intro hc
        rcases List.mem_append.1 hc with hy | hy
        · exact hdisj u (List.mem_cons.2 (Or.inr hu)) hy
        · simp at hy
          exact hnd.1 (hy ▸ List.mem_map.2 ⟨u, hu, rfl⟩)

theorem inv_batch_start {maxR : Nat} {s : OrchState} {bid : Int}
    {items : List WorkItemRequest} (hInv : Inv maxR s)
    (hsz : s.file_queue_size = 0) (hip : s.in_progress = [])
    (hnd : (items.map (fun w => w.filepath)).Nodup) :
    Inv maxR (batch_start s bid items) := by
  have hq0 : s.file_queue = [] := by
    have h := hInv.size_eq
    rw [hsz] at h
    exact List.length_eq_zero.1 h.symm
  have hd : ∀ w ∈ items,
      w.filepath ∉ s.file_queue.map (fun u => u.filepath) := by
    intro w hw hc
    rw [hq0] at hc
    simp at hc
  unfold batch_start
  by_cases hsing : s.singleton_run_summary_path_some
  · rw [if_pos hsing]
    have ht : Inv maxR
        ({ s with
          on_batch_id := bid,
          batch_completion_evt := false,
          run_summary_thread_gate := true } : OrchState) :=
      inv_transfer hInv rfl rfl rfl rfl
    exact inv_transfer (batch_fold_inv maxR items _ ht hip hnd hd)
      rfl rfl rfl rfl
  · rw [if_neg hsing]
    have ht : Inv maxR
        ({ s with
          work_results := [],
          on_batch_id := bid,
          batch_completion_evt := false,
          run_summary_thread_gate := true } : OrchState) := by
      constructor
      · exact hInv.size_eq
      · exact hInv.queue_nodup
      · intro u hu
        exact hInv.disjoint u hu
      · intro p hp
        exact hInv.inprog_keys p hp
      · exact hInv.inprog_nodup
      · intro fp r hfr
        exact absurd hfr (by simp [alookup])
    exact inv_transfer (batch_fold_inv maxR items _ ht hip hnd hd)
      rfl rfl rfl rfl

theorem inv_initial (maxR : Nat) (pid : Nat) (single : Bool) :
    Inv maxR (initialState pid single) := by
  constructor
  · rfl
  · exact List.nodup_nil
  · intro u hu
    simp [initialState] at hu
  · intro p hp
    simp [initialState] at hp
  · exact List.nodup_nil
  · intro fp r hfr
    simp [initialState, alookup] at hfr

theorem inv_reach {maxR : Nat} {init s : OrchState}
    (h : Reach maxR init s) (hInv : Inv maxR init) : Inv maxR s := by
  induction h with
  | refl => exact hInv
  | steal s1 s2 m _ hstep ih => exact inv_steal ih hstep
  | success s1 s2 m fp r _ hr1 hn ih => exact inv_success ih hr1 hn
  | failure s1 s2 m fp r _ hr1 hn ih => exact inv_failure ih hr1 hn
  | hotswap s1 s2 procType cfg _ hh ih => exact inv_hotswap ih hh
  | cancel s1 bid _ ih => exact inv_cancel ih
  | stop s1 pid _ ih => exact inv_stop ih
  | batchStart s1 bid items _ hsz hip hnd ih =>
      exact inv_batch_start ih hsz hip hnd

/-- C2: a completed `notify_work_failure` call from a non-retired manager
without stop requested re-enqueues the in-progress request iff the incoming
result is retriable and the merged attempt count minus 1 is below
`ORCHESTRATOR_SCOPE_MAX_RETRIES`; consequently, in every state reachable by
completed orchestrator operations in which each reported result carries
`attempts = 1`, every stored result satisfies
`attempts ≤ maxRetries + 1`. -/
theorem c2_retry_bound (maxRetries : Nat) :
    (∀ (s : OrchState) (m : EndpointManager) (fp : String)
        (r : WorkItemResult) (req : WorkItemRequest) (s' : OrchState),
      memStr s.old_managers m.name = false → s.stop_requested = false →
      alookup s.in_progress fp = some req →
      (alookup s.in_progress_owner fp).isSome = true →
      notify_work_failure maxRetries s m fp r = some s' →
      ((s'.file_queue = s.file_queue ++ [req] ∧
          s'.file_queue_size = s.file_queue_size + 1) ↔
        (r.can_retry = true ∧
          ((mergedResult s.work_results fp r).attempts : Int) - 1 <
            (maxRetries : Int)))) ∧
    (∀ (pid : Nat) (single : Bool) (s : OrchState),
      Reach maxRetries (initialState pid single) s →
      ∀ fp r, alookup s.work_results fp = some (some r) →
        r.attempts ≤ maxRetries + 1) := by
  constructor
  · intro s m fp r req s' hm hs hin howi h
    obtain ⟨own, how⟩ := Option.isSome_iff_exists.1 howi
    obtain ⟨s'', he, hq', hsz', -⟩ :=
      @notify_work_failure_char maxRetries s m fp r req own hm hs hin how
    rw [he, Option.some.injEq] at h
    subst h
    constructor
    · rintro ⟨h1, -⟩
      by_cases hP : r.can_retry = true ∧
          ((mergedResult s.work_results fp r).attempts : Int) - 1 <
            (maxRetries : Int)
      · exact hP
      · rw [if_neg hP] at hq'
        rw [hq'] at h1
        exfalso
        have hlen := congrArg List.length h1
        simp at hlen
    · intro hP
      rw [if_pos hP] at hq' hsz'
      exact ⟨hq', hsz'⟩
  · intro pid single s hre fp r hfr
    exact ((inv_reach hre (inv_initial maxRetries pid single)).attempts_bound
      fp r hfr).1

/-- Witness for C2: a concrete retriable failure with merged attempts 2 and
budget 2 is re-enqueued, and along a concrete reachable trace every stored
result respects the bound. -/
theorem c2_witness :
    (memStr stInProgress.old_managers mgrEn.name = false ∧
      stInProgress.stop_requested = false ∧
      alookup stInProgress.in_progress "f1" = some wEn ∧
      ∃ s', notify_work_failure 2 stInProgress mgrEn "f1" resRetry = some s' ∧
        ((s'.file_queue = stInProgress.file_queue ++ [wEn] ∧
            s'.file_queue_size = stInProgress.file_queue_size + 1) ↔
          (resRetry.can_retry = true ∧
            ((mergedResult stInProgress.work_results "f1" resRetry).attempts :
              Int) - 1 < (2 : Int)))) ∧
    (∃ s, Reach 2 (initialState 7 false) s ∧
      ∀ fp r, alookup s.work_results fp = some (some r) →
        r.attempts ≤ 2 + 1) := by
  constructor
  · refine ⟨by decide, rfl, by decide, ?_⟩
    obtain ⟨s', hs'⟩ : ∃ s',
        notify_work_failure 2 stInProgress mgrEn "f1" resRetry = some s' :=
      ⟨_, rfl⟩
    exact ⟨s', hs',
      (c2_retry_bound 2).1 stInProgress mgrEn "f1" resRetry wEn s' (by decide)
        rfl (by decide) (by decide) hs'⟩
  · have ht : Reach 2 (initialState 7 false)
        (batch_start (initialState 7 false) 5 [wEn]) :=
      Reach.batchStart _ 5 [wEn] Reach.refl rfl rfl (by decide)
    exact ⟨_, ht, (c2_retry_bound 2).2 7 false _ ht⟩

end Batchkit
